import Mathlib

/-!
The program `utils/process_names.cc` of streetmangler.

A shallow embedding of the driver program `process_names` and of the contract it
has with the matching-and-aggregation core.

Conventions of the embedding

* A C string (`const char*`, `std::string`) is a Lean `String`; every `Char` of it
  stands for one C `char`, so `String.length` is `std::string::length`.
* `size_t` and `unsigned long` are 64 bits wide (LP64); `int` is 32 bits wide.
  Machine integers are `Nat`/`Int` with the wrap-around written out.
* `getopt` belongs to libc.  `main` is given the sequence of results that the
  successive `getopt` calls return before `-1` (option character and `optarg`),
  and the operands that remain after `optind`.
* Everything `main` does to the outside is recorded, in program order, in a trace
  of `Effect`s.  The classes behind `Database`, `NameAggregator`,
  `OsmNameExtractor` and `StringListParser` live in other files; what they answer
  (does a `Load` return or throw, which names does a parser deliver, does it
  throw) is given by a `World`.
-/

namespace StreetMangler

/-! ## Constants of `process_names.cc` -/

/-- The macro `DEFAULT_DATAFILE`. -/
def DEFAULT_DATAFILE : String := "streets.txt"

/-- The macro `DEFAULT_LOCALE`. -/
def DEFAULT_LOCALE : String := "ru_RU"

/-- The array `default_addr_tags`. -/
def default_addr_tags : List String :=
  ["addr:street", "addr:street1", "addr:street2", "addr:street3", "addr2:street", "addr3:street"]

/-- The array `default_name_tags`. -/
def default_name_tags : List String := ["name"]

/-- The two enumerators of `NameAggregator` that `main` ors into `flags`
(`name_aggregator.hh` is not part of the embedded file, so their values are parameters). -/
structure FlagBits where
  PERSTREET_STATS : Nat
  COUNT_NAMES : Nat

/-! ## libc and libstdc++ helpers used by `main` -/

/-- Width of `size_t` and of `unsigned long`. -/
def WORD : Nat := 2 ^ 64

/-- The constant `ULONG_MAX`. -/
def ULONG_MAX : Nat := WORD - 1

/-- The constant `std::string::npos`, that is `(size_t)-1`. -/
def npos : Nat := WORD - 1

/-- The test `isspace` in the C locale. -/
def isspace (c : Char) : Bool :=
  c == ' ' || c == '\t' || c == '\n' || c == '\x0b' || c == '\x0c' || c == '\r'

/-- The test `isdigit`. -/
def isdigit (c : Char) : Bool := 48 ≤ c.toNat && c.toNat ≤ 57

/-- Value of a run of decimal digits, most significant first. -/
def digitsValue (ds : List Char) : Nat :=
  ds.foldl (fun acc d => acc * 10 + (d.toNat - 48)) 0

/-- Splits an optional sign off the subject sequence of `strtoul`: the flag says
whether a minus sign was read. -/
def splitSign : List Char → Bool × List Char
  | '-' :: rest => (true, rest)
  | '+' :: rest => (false, rest)
  | cs => (false, cs)

/-- The libc call `strtoul(nptr, 0, 10)`: leading white space is skipped, an optional
sign is read, then the longest run of decimal digits.  No digits give 0; a value
above `ULONG_MAX` gives `ULONG_MAX`; a minus sign negates the value in
`unsigned long`. -/
def strtoul (nptr : String) : Nat :=
  let signed := splitSign (nptr.data.dropWhile isspace)
  let v := digitsValue (signed.2.takeWhile isdigit)
  if ULONG_MAX < v then ULONG_MAX
  else if signed.1 then (WORD - v) % WORD
  else v

/-- The conversion `(int)` of an `unsigned long`: reduction modulo `2^32`, read as
two's complement. -/
def toInt32 (n : Nat) : Int :=
  if n % 2 ^ 32 < 2 ^ 31 then ((n % 2 ^ 32 : Nat) : Int) else ((n % 2 ^ 32 : Nat) : Int) - 2 ^ 32

/-- The downward search of `std::string::rfind`: tries the positions `pos`, `pos - 1`,
..., `0` and answers the first at which `pat` occurs in `s`, or `npos`. -/
def rfindFrom (s pat : List Char) : Nat → Nat
  | 0 => if pat.isPrefixOf s then 0 else npos
  | pos + 1 => if pat.isPrefixOf (s.drop (pos + 1)) then pos + 1 else rfindFrom s pat pos

/-- The call `s.rfind(pat)` of `std::string` (search from the end): position of the
last occurrence of `pat` in `s`, or `npos`. -/
def rfind (s pat : String) : Nat :=
  if pat.length ≤ s.length then rfindFrom s.data pat.data (s.length - pat.length) else npos

/-- The expression `file.length() - 4` in `size_t` arithmetic. -/
def lengthMinus4 (file : String) : Nat := (file.length + WORD - 4) % WORD

/-! ## Option processing -/

/-- One result of `getopt`: the character it returns and the `optarg` it sets. -/
structure GetoptResult where
  c : Char
  optarg : String
  deriving DecidableEq, Repr

/-- The local variables of `main` that the option loop writes. -/
structure Options where
  localename : String
  dumpflag : Bool
  flags : Nat
  spelldistance : Int
  use_default_addr_tags : Bool
  use_default_name_tags : Bool
  datafiles : List String
  name_tags : List String
  addr_tags : List String
  deriving DecidableEq, Repr

/-- The initial values of the locals of `main`. -/
def Options.initial : Options :=
  { localename := DEFAULT_LOCALE, dumpflag := false, flags := 0, spelldistance := 1,
    use_default_addr_tags := true, use_default_name_tags := true,
    datafiles := [], name_tags := [], addr_tags := [] }

/-- The `switch (c)` of the option loop.  `Except.error code` is `return usage(progname, code)`. -/
def optionStep (K : FlagBits) (o : Options) (g : GetoptResult) : Except Int Options :=
  if g.c = 's' then .ok { o with flags := o.flags ||| K.PERSTREET_STATS }
  else if g.c = 'd' then .ok { o with dumpflag := true }
  else if g.c = 'f' then .ok { o with datafiles := o.datafiles ++ [g.optarg] }
  else if g.c = 'n' then .ok { o with name_tags := o.name_tags ++ [g.optarg] }
  else if g.c = 'l' then .ok { o with localename := g.optarg }
  else if g.c = 'p' then .ok { o with spelldistance := toInt32 (strtoul g.optarg) }
  else if g.c = 'a' then .ok { o with addr_tags := o.addr_tags ++ [g.optarg] }
  else if g.c = 'c' then .ok { o with flags := o.flags ||| K.COUNT_NAMES }
  else if g.c = 'A' then .ok { o with use_default_addr_tags := false }
  else if g.c = 'N' then .ok { o with use_default_name_tags := false }
  else if g.c = 'h' then .error 0
  else .error 1

/-- The loop `while ((c = getopt(...)) != -1)`. -/
def optionLoop (K : FlagBits) : Options → List GetoptResult → Except Int Options
  | o, [] => .ok o
  | o, g :: gs =>
    match optionStep K o g with
    | .ok o1 => optionLoop K o1 gs
    | .error code => .error code

/-- The three `if`s after the option loop: the default database and the default tag sets. -/
def applyDefaults (o : Options) : Options :=
  let o1 := if o.datafiles.isEmpty then { o with datafiles := o.datafiles ++ [DEFAULT_DATAFILE] } else o
  let o2 := if o1.addr_tags.isEmpty && o1.use_default_addr_tags
            then { o1 with addr_tags := o1.addr_tags ++ default_addr_tags } else o1
  if o2.name_tags.isEmpty && o2.use_default_name_tags
  then { o2 with name_tags := o2.name_tags ++ default_name_tags } else o2

/-! ## Effects and the outside world -/

/-- What `main` does to the outside, one constructor per kind of call. -/
inductive Effect where
  | usage (code : Int)
  | stderr (text : String)
  | newLocale (name : String)
  | newDatabase
  | load (path : String)
  | newAggregator (flags : Nat) (spelldistance : Int)
  | addAddrTag (tag : String)
  | addNameTag (tag : String)
  | osmParseStdin
  | osmParseFile (path : String)
  | textParseFile (path : String)
  | processName (name : String)
  | dumpData
  | dumpStats
  deriving DecidableEq, Repr

/-- How `main` ends: it returns an exit code, or an exception thrown by a callee
leaves `main` (there is no `try` in the file). -/
inductive Outcome where
  | exit (code : Int)
  | uncaught
  deriving DecidableEq, Repr

/-- What a parser does with one input source: the names it hands to its callback,
in order, and whether it then returns (`ok`) or throws. -/
structure Delivery where
  names : List String
  ok : Bool
  deriving DecidableEq, Repr

/-- The input sources `main` can hand to a parser. -/
inductive Source where
  | stdin
  | osmFile (path : String)
  | textFile (path : String)
  deriving DecidableEq, Repr

/-- Answers of the outside: `loadOk i path` says whether the `i`-th call
`database.Load(path)` returns rather than throws, `parse i src` what the parser
does for the `i`-th input argument. -/
structure World where
  loadOk : Nat → String → Bool
  parse : Nat → Source → Delivery

/-- A finished run of `main`. -/
structure Run where
  trace : List Effect
  outcome : Outcome
  deriving DecidableEq, Repr

/-! ## The two adapters -/

/-- The method `OsmNameProcessor::ProcessName`: forwards the name to the aggregator the
processor was constructed with.  `aggregatorProcessName` is `NameAggregator::ProcessName`
as a transition of whatever state the aggregator has. -/
def OsmNameProcessor.ProcessName {σ : Type} (aggregatorProcessName : String → σ → σ)
    (name : String) : σ → σ :=
  aggregatorProcessName name

/-- The method `TextfileNameProcessor::ProcessString`: forwards the string to the
aggregator the processor was constructed with. -/
def TextfileNameProcessor.ProcessString {σ : Type} (aggregatorProcessName : String → σ → σ)
    (string : String) : σ → σ :=
  aggregatorProcessName string

/-- In the trace of `main` a call of `NameAggregator::ProcessName` is the effect
`processName`. -/
def recordProcessName (name : String) (trace : List Effect) : List Effect :=
  trace ++ [Effect.processName name]

/-- Effects of the callbacks of `osm_processor` for the names a parse delivers. -/
def osmCallbacks (names : List String) : List Effect :=
  names.foldl (fun t n => OsmNameProcessor.ProcessName recordProcessName n t) []

/-- Effects of the callbacks of `text_processor` for the strings a parse delivers. -/
def textCallbacks (names : List String) : List Effect :=
  names.foldl (fun t n => TextfileNameProcessor.ProcessString recordProcessName n t) []

/-! ## `main` -/

/-- The loop over `datafiles`: message, then `database.Load`.  The flag is `false`
when a `Load` threw; the loop stops there. -/
def loadLoop (w : World) : Nat → List String → List Effect × Bool
  | _, [] => ([], true)
  | i, path :: rest =>
    let here := [Effect.stderr ("Loading database \"" ++ path ++ "\"...\n"), Effect.load path]
    if w.loadOk i path then
      ((here ++ (loadLoop w (i + 1) rest).1), (loadLoop w (i + 1) rest).2)
    else (here, false)

/-- The `if`/`else if` chain on one input argument: which parser gets the argument,
`none` for the final `else`. -/
def inputKind (file : String) : Option Source :=
  if file = "-" then some Source.stdin
  else if rfind file ".osm" = lengthMinus4 file || file = "-" then some (Source.osmFile file)
  else if rfind file ".txt" = lengthMinus4 file then some (Source.textFile file)
  else none

/-- How the loop over the input arguments ends. -/
inductive InputEnd where
  | done
  | threw
  | unknownFormat
  deriving DecidableEq, Repr

/-- The body of the input loop for a recognised source: message, the parse call, the
callbacks it makes. -/
def parseEffects (src : Source) (d : Delivery) : List Effect :=
  match src with
  | Source.stdin =>
    [Effect.stderr "Processing stdin as OSM data...\n", Effect.osmParseStdin] ++ osmCallbacks d.names
  | Source.osmFile file =>
    [Effect.stderr ("Processing file \"" ++ file ++ "\" as OSM data...\n"), Effect.osmParseFile file]
      ++ osmCallbacks d.names
  | Source.textFile file =>
    [Effect.stderr ("Processing file \"" ++ file ++ "\" as strings list...\n"),
      Effect.textParseFile file] ++ textCallbacks d.names

/-- The loop `for (int i = 0; i < argc; ++i)` over the input arguments. -/
def inputLoop (w : World) : Nat → List String → List Effect × InputEnd
  | _, [] => ([], InputEnd.done)
  | i, file :: rest =>
    match inputKind file with
    | none =>
      ([Effect.stderr (file ++ ": unknown format (we only support .osm and .txt)\n")],
        InputEnd.unknownFormat)
    | some src =>
      let here := parseEffects src (w.parse i src)
      if (w.parse i src).ok then
        (here ++ (inputLoop w (i + 1) rest).1, (inputLoop w (i + 1) rest).2)
      else (here, InputEnd.threw)

/-- The calls that set up the aggregator and the OSM processor, between the load
loop and the input loop. -/
def setupEffects (o : Options) : List Effect :=
  [Effect.newAggregator o.flags o.spelldistance]
    ++ o.addr_tags.map Effect.addAddrTag ++ o.name_tags.map Effect.addNameTag

/-- The end of `main`: the optional dump, then the statistics. -/
def dumpEffects (o : Options) : List Effect :=
  (if o.dumpflag then [Effect.stderr "Dumping data...\n", Effect.dumpData] else [])
    ++ [Effect.dumpStats]

/-- The function `main`, given the results of `getopt` and the operands left after
the options. -/
def main (K : FlagBits) (w : World) (opts : List GetoptResult) (files : List String) : Run :=
  match optionLoop K Options.initial opts with
  | .error code => ⟨[Effect.usage code], Outcome.exit code⟩
  | .ok parsed =>
    let o := applyDefaults parsed
    if files.isEmpty then ⟨[Effect.usage 1], Outcome.exit 1⟩
    else
      let start := [Effect.newLocale o.localename, Effect.newDatabase]
      let loaded := loadLoop w 0 o.datafiles
      if loaded.2 then
        let input := inputLoop w 0 files
        match input.2 with
        | InputEnd.done =>
          ⟨start ++ loaded.1 ++ setupEffects o ++ input.1 ++ dumpEffects o, Outcome.exit 0⟩
        | InputEnd.unknownFormat =>
          ⟨start ++ loaded.1 ++ setupEffects o ++ input.1, Outcome.exit 1⟩
        | InputEnd.threw =>
          ⟨start ++ loaded.1 ++ setupEffects o ++ input.1, Outcome.uncaught⟩
      else ⟨start ++ loaded.1, Outcome.uncaught⟩

/-- The outcome of `main` for each end of the input loop. -/
def outcomeOf : InputEnd → Outcome
  | InputEnd.done => Outcome.exit 0
  | InputEnd.unknownFormat => Outcome.exit 1
  | InputEnd.threw => Outcome.uncaught

/-! ## Reading a trace -/

/-- The calls `database.Load`. -/
def Effect.isLoad : Effect → Bool
  | Effect.load _ => true
  | _ => false

/-- The calls that process input: the three parse calls and `NameAggregator::ProcessName`. -/
def Effect.isProcessing : Effect → Bool
  | Effect.osmParseStdin => true
  | Effect.osmParseFile _ => true
  | Effect.textParseFile _ => true
  | Effect.processName _ => true
  | _ => false

/-- The construction of the `NameAggregator`. -/
def Effect.isNewAggregator : Effect → Bool
  | Effect.newAggregator _ _ => true
  | _ => false

/-- The calls `DumpData` and `DumpStats`. -/
def Effect.isDump : Effect → Bool
  | Effect.dumpData => true
  | Effect.dumpStats => true
  | _ => false

/-- The calls `AddAddrTag` and `AddNameTag`. -/
def Effect.isTag : Effect → Bool
  | Effect.addAddrTag _ => true
  | Effect.addNameTag _ => true
  | _ => false

/-- The paths passed to `database.Load`, in call order. -/
def loadedPaths (trace : List Effect) : List String :=
  trace.filterMap (fun e => match e with
    | Effect.load path => some path
    | _ => none)

/-- The tags passed to `AddAddrTag`, in call order. -/
def addrTagsOf (trace : List Effect) : List String :=
  trace.filterMap (fun e => match e with
    | Effect.addAddrTag tag => some tag
    | _ => none)

/-- The tags passed to `AddNameTag`, in call order. -/
def nameTagsOf (trace : List Effect) : List String :=
  trace.filterMap (fun e => match e with
    | Effect.addNameTag tag => some tag
    | _ => none)

/-- The spell distance of the first `NameAggregator` constructed in a trace. -/
def passedSpellDistance : List Effect → Option Int
  | [] => none
  | Effect.newAggregator _ d :: _ => some d
  | _ :: rest => passedSpellDistance rest

/-- The arguments of the options with character `c`, in command-line order. -/
def optargsOf (c : Char) (opts : List GetoptResult) : List String :=
  (opts.filter (fun g => g.c == c)).map (fun g => g.optarg)

/-- Whether the option with character `c` occurs. -/
def given (c : Char) (opts : List GetoptResult) : Bool :=
  opts.any (fun g => g.c == c)

/-- The spell distance after the options: the last `-p` argument decides, converted by
`strtoul` and the cast to `int`; without `-p` the start value stays. -/
def spellDistanceAfter (start : Int) (opts : List GetoptResult) : Int :=
  match (optargsOf 'p' opts).getLast? with
  | none => start
  | some arg => toInt32 (strtoul arg)

/-- The input kinds as the usage text and the error message describe them: `-` is
standard input, a name ending in `.osm` is OSM data, a name ending in `.txt` is a
list of strings, everything else is refused. -/
def describedKind (file : String) : Option Source :=
  if file = "-" then some Source.stdin
  else if ".osm".data.isSuffixOf file.data then some (Source.osmFile file)
  else if ".txt".data.isSuffixOf file.data then some (Source.textFile file)
  else none

/-- A world in which every call returns and every parser delivers the given names. -/
def World.quiet (names : List String) : World :=
  { loadOk := fun _ _ => true, parse := fun _ _ => ⟨names, true⟩ }

/-- A world in which the parser throws on the `k`-th input argument, after it has
delivered the given names, and every other call returns. -/
def World.parseThrowsAt (k : Nat) (names : List String) : World :=
  { loadOk := fun _ _ => true, parse := fun i _ => ⟨names, i != k⟩ }

/-- A world in which the `k`-th `Load` throws and every other call returns. -/
def World.loadThrowsAt (k : Nat) : World :=
  { loadOk := fun i _ => i != k, parse := fun _ _ => ⟨[], true⟩ }

/-- Some flag values for running the model (`0x01` and `0x02`). -/
def FlagBits.sample : FlagBits := ⟨1, 2⟩

/-! ## The core, as the specification describes it

`name_aggregator.hh` and the library behind `database.hh` are not among the embedded
sources.  The definitions of this section follow sections 3, 4.1 and 4.2 of the
specification. -/

/-- Modelled from the spec: the classification kinds of a `MatchResult` (section 3, with
the fourth kind of section 4.1 step 5); the class itself is in the missing library. -/
inductive MatchKind where
  | Exact
  | CloseMatch
  | Unmatched
  | AmbiguousUnmatched
  deriving DecidableEq, Repr

/-- Modelled from the spec: the value `MatchResult` of section 3 (candidate, kind, matched
canonical entry, edit distance); its declaration is in the missing library. -/
structure MatchResult where
  candidate : String
  kind : MatchKind
  matched : Option String
  distance : Nat
  deriving DecidableEq, Repr

/-- Modelled from the spec: the `StreetDatabase` of section 4.1, whose source is missing.
`normalize` is the normalisation of the locale (a black box in the specification),
`distance` the edit distance of the glossary, `entries` the normalised forms of the
canonical names that were loaded. -/
structure Database where
  normalize : String → String
  distance : String → String → Nat
  entries : List String

/-- Modelled from the spec: `Classify` of section 4.1 (the source of the database is
missing), steps 1 to 6 with bound `D`.  An exact hit gives `Exact`; otherwise the entries
within distance `D` are taken: none gives `Unmatched`, a single nearest one gives
`CloseMatch`, several at the least distance give `AmbiguousUnmatched`. -/
def Database.Classify (db : Database) (D : Int) (candidate : String) : MatchResult :=
  let n := db.normalize candidate
  if n ∈ db.entries then ⟨candidate, MatchKind.Exact, some n, 0⟩
  else
    match db.entries.filter (fun c => ((db.distance n c : Nat) : Int) ≤ D) with
    | [] => ⟨candidate, MatchKind.Unmatched, none, 0⟩
    | c :: rest =>
      let least := rest.foldl (fun m e => min m (db.distance n e)) (db.distance n c)
      match (c :: rest).filter (fun e => db.distance n e == least) with
      | [best] => ⟨candidate, MatchKind.CloseMatch, some best, least⟩
      | _ => ⟨candidate, MatchKind.AmbiguousUnmatched, none, least⟩

/-- Modelled from the spec: the configuration of the `NameAggregator` of section 4.2
(`name_aggregator.hh` is missing). -/
structure AggregatorConfig where
  perStreetStats : Bool
  countNames : Bool
  spellDistance : Int

/-- Modelled from the spec: `AggregateStats` of section 3 (`name_aggregator.hh` is
missing): the global counters and, per canonical street, the candidates that matched it
with their frequencies. -/
structure AggregateStats where
  total : Nat
  exact : Nat
  closeMatch : Nat
  unmatched : Nat
  ambiguousUnmatched : Nat
  perStreet : List (String × List (String × Nat))
  deriving DecidableEq, Repr

/-- Modelled from the spec: the statistics of a freshly constructed aggregator
(`name_aggregator.hh` is missing). -/
def AggregateStats.initial : AggregateStats := ⟨0, 0, 0, 0, 0, []⟩

/-- Modelled from the spec: the increment of "the relevant global counter" of section 4.2
(`name_aggregator.hh` is missing). -/
def AggregateStats.count (s : AggregateStats) : MatchKind → AggregateStats
  | MatchKind.Exact => { s with total := s.total + 1, exact := s.exact + 1 }
  | MatchKind.CloseMatch => { s with total := s.total + 1, closeMatch := s.closeMatch + 1 }
  | MatchKind.Unmatched => { s with total := s.total + 1, unmatched := s.unmatched + 1 }
  | MatchKind.AmbiguousUnmatched =>
    { s with total := s.total + 1, ambiguousUnmatched := s.ambiguousUnmatched + 1 }

/-- Modelled from the spec: recording a candidate in one street's bucket (section 4.2,
`name_aggregator.hh` is missing): with `countNames` its frequency goes up, without it the
candidate is kept once. -/
def recordCandidate (countNames : Bool) (candidate : String) :
    List (String × Nat) → List (String × Nat)
  | [] => [(candidate, 1)]
  | (c, n) :: rest =>
    if c = candidate then (c, if countNames then n + 1 else n) :: rest
    else (c, n) :: recordCandidate countNames candidate rest

/-- Modelled from the spec: recording a candidate under its matched canonical street
(section 4.2, `name_aggregator.hh` is missing). -/
def recordStreet (countNames : Bool) (street candidate : String) :
    List (String × List (String × Nat)) → List (String × List (String × Nat))
  | [] => [(street, [(candidate, 1)])]
  | (st, bucket) :: rest =>
    if st = street then (st, recordCandidate countNames candidate bucket) :: rest
    else (st, bucket) :: recordStreet countNames street candidate rest

/-- Modelled from the spec: the classification `ProcessName` works with (sections 4.2 and
7; `name_aggregator.hh` is missing): an empty candidate is counted as `Unmatched`, every
other candidate is classified by the database with the configured bound. -/
def NameAggregator.classification (cfg : AggregatorConfig) (db : Database)
    (candidate : String) : MatchResult :=
  if candidate.isEmpty then ⟨candidate, MatchKind.Unmatched, none, 0⟩
  else db.Classify cfg.spellDistance candidate

/-- Modelled from the spec: `NameAggregator.ProcessName` of section 4.2
(`name_aggregator.hh` is missing): classify the candidate, increment the counter of its
kind, and with `perStreetStats` record an `Exact` or `CloseMatch` candidate under the
street it matched. -/
def NameAggregator.ProcessName (cfg : AggregatorConfig) (db : Database) (candidate : String)
    (s : AggregateStats) : AggregateStats :=
  let r := NameAggregator.classification cfg db candidate
  let counted := s.count r.kind
  match cfg.perStreetStats, r.matched with
  | true, some street =>
    { counted with perStreet := recordStreet cfg.countNames street candidate counted.perStreet }
  | _, _ => counted

/-- The sum `Exact + CloseMatch + Unmatched + AmbiguousUnmatched` of the global counters. -/
def AggregateStats.classified (s : AggregateStats) : Nat :=
  s.exact + s.closeMatch + s.unmatched + s.ambiguousUnmatched

/-- One candidate delivered by a producer: `viaOsm` says whether it came through
`OsmNameProcessor::ProcessName` or through `TextfileNameProcessor::ProcessString`. -/
structure Delivered where
  viaOsm : Bool
  name : String
  deriving DecidableEq, Repr

/-- The callback a delivered candidate goes through. -/
def Delivered.callback {σ : Type} (aggregatorProcessName : String → σ → σ) (d : Delivered) :
    σ → σ :=
  if d.viaOsm then OsmNameProcessor.ProcessName aggregatorProcessName d.name
  else TextfileNameProcessor.ProcessString aggregatorProcessName d.name

/-- Feeding a sequence of delivered candidates, in order, to the aggregator behind the
two adapters. -/
def feed {σ : Type} (aggregatorProcessName : String → σ → σ) (st : σ) (ds : List Delivered) : σ :=
  ds.foldl (fun acc d => d.callback aggregatorProcessName acc) st

/-! ## The adapters and the counters -/

theorem OsmNameProcessor.ProcessName_eq {σ : Type} (agg : String → σ → σ) (s : String) (st : σ) :
    OsmNameProcessor.ProcessName agg s st = agg s st := rfl

theorem TextfileNameProcessor.ProcessString_eq {σ : Type} (agg : String → σ → σ) (s : String)
    (st : σ) : TextfileNameProcessor.ProcessString agg s st = agg s st := rfl

theorem Delivered.callback_eq {σ : Type} (agg : String → σ → σ) (d : Delivered) (st : σ) :
    d.callback agg st = agg d.name st := by
  unfold Delivered.callback
  split <;> rfl

theorem feed_eq_foldl {σ : Type} (agg : String → σ → σ) (ds : List Delivered) (st : σ) :
    feed agg st ds = (ds.map (fun d => d.name)).foldl (fun acc n => agg n acc) st := by
  unfold feed
  induction ds generalizing st with
  | nil => rfl
  | cons d rest ih =>
    simp only [List.foldl_cons, List.map_cons]
    rw [ih, Delivered.callback_eq]

theorem feed_append {σ : Type} (agg : String → σ → σ) (ds es : List Delivered) (st : σ) :
    feed agg st (ds ++ es) = feed agg (feed agg st ds) es := by
  simp [feed, List.foldl_append]

theorem recordProcessName_foldl (names : List String) (t : List Effect) :
    names.foldl (fun acc n => recordProcessName n acc) t = t ++ names.map Effect.processName := by
  induction names generalizing t with
  | nil => simp
  | cons n rest ih =>
    simp only [List.foldl_cons, List.map_cons]
    rw [ih]
    simp [recordProcessName]

theorem osmCallbacks_eq (names : List String) :
    osmCallbacks names = names.map Effect.processName := by
  have h := recordProcessName_foldl names []
  simpa [osmCallbacks, OsmNameProcessor.ProcessName] using h

theorem textCallbacks_eq (names : List String) :
    textCallbacks names = names.map Effect.processName := by
  have h := recordProcessName_foldl names []
  simpa [textCallbacks, TextfileNameProcessor.ProcessString] using h

theorem count_classified (s : AggregateStats) (k : MatchKind) :
    (s.count k).classified = s.classified + 1 := by
  cases k <;> simp [AggregateStats.count, AggregateStats.classified] <;> omega

theorem count_total (s : AggregateStats) (k : MatchKind) : (s.count k).total = s.total + 1 := by
  cases k <;> simp [AggregateStats.count]

theorem ProcessName_counters (cfg : AggregatorConfig) (db : Database) (c : String)
    (s : AggregateStats) :
    (NameAggregator.ProcessName cfg db c s).exact
        = (s.count (NameAggregator.classification cfg db c).kind).exact
      ∧ (NameAggregator.ProcessName cfg db c s).closeMatch
        = (s.count (NameAggregator.classification cfg db c).kind).closeMatch
      ∧ (NameAggregator.ProcessName cfg db c s).unmatched
        = (s.count (NameAggregator.classification cfg db c).kind).unmatched
      ∧ (NameAggregator.ProcessName cfg db c s).ambiguousUnmatched
        = (s.count (NameAggregator.classification cfg db c).kind).ambiguousUnmatched
      ∧ (NameAggregator.ProcessName cfg db c s).total
        = (s.count (NameAggregator.classification cfg db c).kind).total := by
  unfold NameAggregator.ProcessName
  dsimp only
  generalize (NameAggregator.classification cfg db c).matched = m
  generalize cfg.perStreetStats = b
  cases b <;> cases m <;> simp

theorem ProcessName_classified (cfg : AggregatorConfig) (db : Database) (c : String)
    (s : AggregateStats) :
    (NameAggregator.ProcessName cfg db c s).classified = s.classified + 1 := by
  obtain ⟨h1, h2, h3, h4, _⟩ := ProcessName_counters cfg db c s
  have h := count_classified s (NameAggregator.classification cfg db c).kind
  simp only [AggregateStats.classified] at h ⊢
  omega

theorem feed_classified (cfg : AggregatorConfig) (db : Database) (ds : List Delivered)
    (s : AggregateStats) :
    (feed (NameAggregator.ProcessName cfg db) s ds).classified = s.classified + ds.length := by
  induction ds generalizing s with
  | nil => simp [feed]
  | cons d rest ih =>
    have : feed (NameAggregator.ProcessName cfg db) s (d :: rest)
        = feed (NameAggregator.ProcessName cfg db)
            (NameAggregator.ProcessName cfg db d.name s) rest := by
      simp [feed, Delivered.callback_eq]
    rw [this, ih, ProcessName_classified]
    simp only [List.length_cons]
    omega

/-- C7: the two producers are interchangeable.  For every aggregator (any state type, any
`ProcessName` transition), every string and every state, `OsmNameProcessor::ProcessName` and
`TextfileNameProcessor::ProcessString` make exactly the call `ProcessName(s)` with `s`
unchanged on the aggregator they were constructed with; so for every sequence of
candidates the final state is the fold of `ProcessName` over the names, and it stays the
same when the adapter that delivers each candidate is chosen in any other way.  In the
trace of `main` the callbacks of either adapter are the effects `processName s`. -/
theorem C7_producers_interchangeable {σ : Type} (agg : String → σ → σ) :
    (∀ (s : String) (st : σ),
        OsmNameProcessor.ProcessName agg s st = agg s st
        ∧ TextfileNameProcessor.ProcessString agg s st = agg s st
        ∧ OsmNameProcessor.ProcessName agg s st = TextfileNameProcessor.ProcessString agg s st)
    ∧ (∀ (ds : List Delivered) (st : σ),
        feed agg st ds = (ds.map (fun d => d.name)).foldl (fun acc n => agg n acc) st)
    ∧ (∀ (other : Delivered → Bool) (ds : List Delivered) (st : σ),
        feed agg st (ds.map (fun d => ⟨other d, d.name⟩)) = feed agg st ds)
    ∧ (∀ names : List String,
        osmCallbacks names = names.map Effect.processName
        ∧ textCallbacks names = names.map Effect.processName) := by
  refine ⟨fun s st => ⟨rfl, rfl, rfl⟩, fun ds st => feed_eq_foldl agg ds st, ?_,
    fun names => ⟨osmCallbacks_eq names, textCallbacks_eq names⟩⟩
  intro other ds st
  rw [feed_eq_foldl, feed_eq_foldl, List.map_map]
  rfl

/-- C8: after `n` candidates have gone through `NameAggregator.ProcessName`, reached from
either adapter callback in any interleaving, the global counters of a fresh aggregator
satisfy `Exact + CloseMatch + Unmatched + AmbiguousUnmatched = n` (and `total = n`); every
single `ProcessName` raises the sum of the four counters by exactly one, none of them
going down. -/
theorem C8_counters_sum_to_processed (cfg : AggregatorConfig) (db : Database) :
    (∀ ds : List Delivered,
        (feed (NameAggregator.ProcessName cfg db) AggregateStats.initial ds).classified
          = ds.length)
    ∧ (∀ (c : String) (s : AggregateStats),
        let s1 := NameAggregator.ProcessName cfg db c s
        s1.exact + s1.closeMatch + s1.unmatched + s1.ambiguousUnmatched
            = s.exact + s.closeMatch + s.unmatched + s.ambiguousUnmatched + 1
          ∧ s.exact ≤ s1.exact ∧ s.closeMatch ≤ s1.closeMatch
          ∧ s.unmatched ≤ s1.unmatched ∧ s.ambiguousUnmatched ≤ s1.ambiguousUnmatched
          ∧ s1.total = s.total + 1) := by
  constructor
  · intro ds
    rw [feed_classified]
    simp [AggregateStats.initial, AggregateStats.classified]
  · intro c s
    obtain ⟨h1, h2, h3, h4, h5⟩ := ProcessName_counters cfg db c s
    simp only [h1, h2, h3, h4, h5]
    cases (NameAggregator.classification cfg db c).kind <;> simp [AggregateStats.count] <;> omega

/-! ## The option loop -/

theorem optargsOf_cons (c : Char) (g : GetoptResult) (gs : List GetoptResult) :
    optargsOf c (g :: gs) = (if g.c = c then [g.optarg] else []) ++ optargsOf c gs := by
  unfold optargsOf
  by_cases h : g.c = c <;> simp [List.filter_cons, h]

theorem given_cons (c : Char) (g : GetoptResult) (gs : List GetoptResult) :
    given c (g :: gs) = (g.c == c || given c gs) := by
  simp [given]

theorem spellDistanceAfter_cons (start : Int) (g : GetoptResult) (gs : List GetoptResult) :
    spellDistanceAfter start (g :: gs)
      = spellDistanceAfter (if g.c = 'p' then toInt32 (strtoul g.optarg) else start) gs := by
  unfold spellDistanceAfter
  rw [optargsOf_cons]
  by_cases h : g.c = 'p'
  · simp only [h, if_true]
    cases hq : optargsOf 'p' gs with
    | nil => simp
    | cons a rest =>
      have hl : (a :: rest).getLast? = some ((a :: rest).getLast (by simp)) :=
        List.getLast?_eq_getLast _ _
      simp [List.getLast?_cons_cons, hl]
  · simp [h]

/-- What the option loop leaves in the locals of `main` when it ends without `usage`. -/
theorem optionLoop_ok (K : FlagBits) (opts : List GetoptResult) (o r : Options)
    (h : optionLoop K o opts = .ok r) :
    r.datafiles = o.datafiles ++ optargsOf 'f' opts
    ∧ r.addr_tags = o.addr_tags ++ optargsOf 'a' opts
    ∧ r.name_tags = o.name_tags ++ optargsOf 'n' opts
    ∧ r.dumpflag = (o.dumpflag || given 'd' opts)
    ∧ r.use_default_addr_tags = (o.use_default_addr_tags && !given 'A' opts)
    ∧ r.use_default_name_tags = (o.use_default_name_tags && !given 'N' opts)
    ∧ r.spelldistance = spellDistanceAfter o.spelldistance opts := by
  induction opts generalizing o with
  | nil =>
    simp only [optionLoop, Except.ok.injEq] at h
    subst h
    simp [optargsOf, given, spellDistanceAfter]
  | cons g gs ih =>
    simp only [optionLoop] at h
    cases hs : optionStep K o g with
    | error code => simp [hs] at h
    | ok o1 =>
      rw [hs] at h
      have hr := ih o1 h
      simp only [optargsOf_cons, given_cons, spellDistanceAfter_cons]
      unfold optionStep at hs
      by_cases h0 : g.c = 's'
      · rw [if_pos h0] at hs
        injection hs with hs
        subst hs
        obtain ⟨r1, r2, r3, r4, r5, r6, r7⟩ := hr
        simp [h0, r1, r2, r3, r4, r5, r6, r7]
      rw [if_neg h0] at hs
      by_cases h1 : g.c = 'd'
      · rw [if_pos h1] at hs
        injection hs with hs
        subst hs
        obtain ⟨r1, r2, r3, r4, r5, r6, r7⟩ := hr
        simp [h1, r1, r2, r3, r4, r5, r6, r7]
      rw [if_neg h1] at hs
      by_cases h2 : g.c = 'f'
      · rw [if_pos h2] at hs
        injection hs with hs
        subst hs
        obtain ⟨r1, r2, r3, r4, r5, r6, r7⟩ := hr
        simp [h2, r1, r2, r3, r4, r5, r6, r7]
      rw [if_neg h2] at hs
      by_cases h3 : g.c = 'n'
      · rw [if_pos h3] at hs
        injection hs with hs
        subst hs
        obtain ⟨r1, r2, r3, r4, r5, r6, r7⟩ := hr
        simp [h3, r1, r2, r3, r4, r5, r6, r7]
      rw [if_neg h3] at hs
      by_cases h4 : g.c = 'l'
      · rw [if_pos h4] at hs
        injection hs with hs
        subst hs
        obtain ⟨r1, r2, r3, r4, r5, r6, r7⟩ := hr
        simp [h4, r1, r2, r3, r4, r5, r6, r7]
      rw [if_neg h4] at hs
      by_cases h5 : g.c = 'p'
      · rw [if_pos h5] at hs
        injection hs with hs
        subst hs
        obtain ⟨r1, r2, r3, r4, r5, r6, r7⟩ := hr
        simp [h5, r1, r2, r3, r4, r5, r6, r7]
      rw [if_neg h5] at hs
      by_cases h6 : g.c = 'a'
      · rw [if_pos h6] at hs
        injection hs with hs
        subst hs
        obtain ⟨r1, r2, r3, r4, r5, r6, r7⟩ := hr
        simp [h6, r1, r2, r3, r4, r5, r6, r7]
      rw [if_neg h6] at hs
      by_cases h7 : g.c = 'c'
      · rw [if_pos h7] at hs
        injection hs with hs
        subst hs
        obtain ⟨r1, r2, r3, r4, r5, r6, r7⟩ := hr
        simp [h7, r1, r2, r3, r4, r5, r6, r7]
      rw [if_neg h7] at hs
      by_cases h8 : g.c = 'A'
      · rw [if_pos h8] at hs
        injection hs with hs
        subst hs
        obtain ⟨r1, r2, r3, r4, r5, r6, r7⟩ := hr
        simp [h8, r1, r2, r3, r4, r5, r6, r7]
      rw [if_neg h8] at hs
      by_cases h9 : g.c = 'N'
      · rw [if_pos h9] at hs
        injection hs with hs
        subst hs
        obtain ⟨r1, r2, r3, r4, r5, r6, r7⟩ := hr
        simp [h9, r1, r2, r3, r4, r5, r6, r7]
      rw [if_neg h9] at hs
      by_cases hh : g.c = 'h'
      · rw [if_pos hh] at hs
        cases hs
      · rw [if_neg hh] at hs
        cases hs

/-! ## The load loop -/

theorem loadedPaths_append (a b : List Effect) :
    loadedPaths (a ++ b) = loadedPaths a ++ loadedPaths b := by
  simp [loadedPaths]

theorem loadedPaths_eq_nil (t : List Effect) (h : ∀ x ∈ t, x.isLoad = false) :
    loadedPaths t = [] := by
  induction t with
  | nil => rfl
  | cons e rest ih =>
    have he := h e (List.mem_cons_self _ _)
    have hrest := ih (fun x hx => h x (List.mem_cons_of_mem _ hx))
    cases e <;> simp_all [loadedPaths, Effect.isLoad]

/-- The paths the load loop passes to `Load` are the first `n` data files, where `n` is
at least one for a non-empty list and is the whole list when no `Load` threw. -/
theorem loadLoop_paths (w : World) (ds : List String) (i : Nat) :
    ∃ n, n ≤ ds.length ∧ loadedPaths (loadLoop w i ds).1 = ds.take n
      ∧ ((loadLoop w i ds).2 = true → n = ds.length) ∧ (ds ≠ [] → 0 < n)
      ∧ ((loadLoop w i ds).2 = false →
          0 < n ∧ ∃ h : n - 1 < ds.length, w.loadOk (i + (n - 1)) (ds.get ⟨n - 1, h⟩) = false)
      ∧ (∀ k (h : k < ds.length), k + 1 < n → w.loadOk (i + k) (ds.get ⟨k, h⟩) = true) := by
  induction ds generalizing i with
  | nil => exact ⟨0, by simp [loadLoop, loadedPaths]⟩
  | cons p rest ih =>
    by_cases hok : w.loadOk i p = true
    · obtain ⟨n, hn, hp, hfull, _, hfail, hbefore⟩ := ih (i + 1)
      refine ⟨n + 1, by simp; omega, ?_, ?_, by simp, ?_, ?_⟩
      · unfold loadLoop
        simp only [hok, if_true, loadedPaths_append, hp, List.take_succ_cons]
        simp [loadedPaths]
      · unfold loadLoop
        simp only [hok, if_true, List.length_cons]
        intro h
        rw [hfull h]
      · unfold loadLoop
        simp only [hok, if_true]
        intro h
        obtain ⟨hpos, hlt, hf⟩ := hfail h
        refine ⟨by omega, by simp; omega, ?_⟩
        have e1 : n + 1 - 1 = (n - 1) + 1 := by omega
        have e2 : i + (n + 1 - 1) = i + 1 + (n - 1) := by omega
        simp only [e1, List.get_eq_getElem, List.getElem_cons_succ]
        rw [show i + (n - 1 + 1) = i + 1 + (n - 1) by omega]
        simpa [List.get_eq_getElem] using hf
      · intro k hk hlt
        cases k with
        | zero => simpa using hok
        | succ k =>
          have hk2 : k < rest.length := by simpa using hk
          have := hbefore k hk2 (by omega)
          have e2 : i + (k + 1) = i + 1 + k := by omega
          simpa [e2, List.get_eq_getElem] using this
    · refine ⟨1, by simp, ?_, ?_, by simp, ?_, ?_⟩
      · unfold loadLoop
        simp [hok, loadedPaths]
      · unfold loadLoop
        simp [hok]
      · intro _
        refine ⟨by omega, by simp, ?_⟩
        simpa using hok
      · intro k hk hlt
        omega

theorem loadLoop_ok_of_all (w : World) (ds : List String) (i : Nat)
    (h : ∀ k (hk : k < ds.length), w.loadOk (i + k) (ds.get ⟨k, hk⟩) = true) :
    (loadLoop w i ds).2 = true := by
  obtain ⟨n, _, _, _, _, hfail, _⟩ := loadLoop_paths w ds i
  by_contra hne
  have hf : (loadLoop w i ds).2 = false := by simpa using hne
  obtain ⟨_, hlt, hbad⟩ := hfail hf
  rw [h (n - 1) hlt] at hbad
  cases hbad

theorem loadLoop_flag_of_bad (w : World) (ds : List String) (i k : Nat) (hk : k < ds.length)
    (hbad : w.loadOk (i + k) (ds.get ⟨k, hk⟩) = false) : (loadLoop w i ds).2 = false := by
  induction ds generalizing i k with
  | nil => simp at hk
  | cons p rest ih =>
    unfold loadLoop
    by_cases hok : w.loadOk i p = true
    · simp only [hok, if_true]
      cases k with
      | zero =>
        simp at hbad
        rw [hok] at hbad
        cases hbad
      | succ k =>
        have hk2 : k < rest.length := by simpa using hk
        have hbad2 : w.loadOk (i + 1 + k) (rest.get ⟨k, hk2⟩) = false := by
          rw [show i + 1 + k = i + (k + 1) by omega]
          simpa [List.get_eq_getElem] using hbad
        exact ih (i + 1) k hk2 hbad2
    · simp [hok]

theorem loadLoop_throws (w : World) (ds : List String) (i k : Nat) (hk : k < ds.length)
    (hbad : w.loadOk (i + k) (ds.get ⟨k, hk⟩) = false) :
    (loadLoop w i ds).2 = false
      ∧ ∃ n, 0 < n ∧ n ≤ k + 1 ∧ loadedPaths (loadLoop w i ds).1 = ds.take n := by
  obtain ⟨n, hn, hp, hfull, hpos, _, hbefore⟩ := loadLoop_paths w ds i
  have hnk : n ≤ k + 1 := by
    by_contra hcon
    have := hbefore k hk (by omega)
    rw [this] at hbad
    cases hbad
  exact ⟨loadLoop_flag_of_bad w ds i k hk hbad, n, hpos (by intro h; simp [h] at hk), hnk, hp⟩

/-! ## The defaults, the input loop, the shape of a run -/

theorem applyDefaults_fields (o : Options) :
    (applyDefaults o).datafiles = (if o.datafiles = [] then [DEFAULT_DATAFILE] else o.datafiles)
    ∧ (applyDefaults o).addr_tags
        = (if o.addr_tags = [] ∧ o.use_default_addr_tags = true then default_addr_tags
           else o.addr_tags)
    ∧ (applyDefaults o).name_tags
        = (if o.name_tags = [] ∧ o.use_default_name_tags = true then default_name_tags
           else o.name_tags)
    ∧ (applyDefaults o).dumpflag = o.dumpflag
    ∧ (applyDefaults o).spelldistance = o.spelldistance
    ∧ (applyDefaults o).flags = o.flags
    ∧ (applyDefaults o).localename = o.localename := by
  obtain ⟨ln, df, fl, sd, ua, un, dfs, nts, ats⟩ := o
  unfold applyDefaults
  cases dfs <;> cases nts <;> cases ats <;> cases ua <;> cases un <;> simp

theorem loadLoop_mem (w : World) (ds : List String) (i : Nat) (x : Effect)
    (hx : x ∈ (loadLoop w i ds).1) : (∃ t, x = Effect.stderr t) ∨ (∃ p, x = Effect.load p) := by
  induction ds generalizing i with
  | nil => simp [loadLoop] at hx
  | cons p rest ih =>
    unfold loadLoop at hx
    by_cases hok : w.loadOk i p = true
    · rw [if_pos hok] at hx
      simp only [List.mem_append, List.mem_cons, List.mem_singleton, List.not_mem_nil,
        or_false] at hx
      rcases hx with (h1 | h1) | h1
      · exact Or.inl ⟨_, h1⟩
      · exact Or.inr ⟨_, h1⟩
      · exact ih (i + 1) h1
    · rw [if_neg hok] at hx
      simp only [List.mem_cons, List.mem_singleton, List.not_mem_nil, or_false] at hx
      rcases hx with h1 | h1
      · exact Or.inl ⟨_, h1⟩
      · exact Or.inr ⟨_, h1⟩

theorem parseEffects_mem (src : Source) (d : Delivery) (x : Effect)
    (hx : x ∈ parseEffects src d) :
    (∃ t, x = Effect.stderr t) ∨ x = Effect.osmParseStdin ∨ (∃ p, x = Effect.osmParseFile p)
      ∨ (∃ p, x = Effect.textParseFile p) ∨ (∃ n, x = Effect.processName n) := by
  cases src <;>
    simp only [parseEffects, osmCallbacks_eq, textCallbacks_eq, List.mem_append, List.mem_cons,
      List.mem_singleton, List.not_mem_nil, or_false, List.mem_map] at hx
  · rcases hx with (h1 | h1) | ⟨n, _, h1⟩
    · exact Or.inl ⟨_, h1⟩
    · exact Or.inr (Or.inl h1)
    · exact Or.inr (Or.inr (Or.inr (Or.inr ⟨n, h1.symm⟩)))
  · rcases hx with (h1 | h1) | ⟨n, _, h1⟩
    · exact Or.inl ⟨_, h1⟩
    · exact Or.inr (Or.inr (Or.inl ⟨_, h1⟩))
    · exact Or.inr (Or.inr (Or.inr (Or.inr ⟨n, h1.symm⟩)))
  · rcases hx with (h1 | h1) | ⟨n, _, h1⟩
    · exact Or.inl ⟨_, h1⟩
    · exact Or.inr (Or.inr (Or.inr (Or.inl ⟨_, h1⟩)))
    · exact Or.inr (Or.inr (Or.inr (Or.inr ⟨n, h1.symm⟩)))

theorem inputLoop_cons_some (w : World) (i : Nat) (file : String) (rest : List String)
    (src : Source) (hk : inputKind file = some src) :
    inputLoop w i (file :: rest)
      = if (w.parse i src).ok then
          (parseEffects src (w.parse i src) ++ (inputLoop w (i + 1) rest).1,
            (inputLoop w (i + 1) rest).2)
        else (parseEffects src (w.parse i src), InputEnd.threw) := by
  rw [inputLoop]
  simp only [hk]

theorem inputLoop_cons_none (w : World) (i : Nat) (file : String) (rest : List String)
    (hk : inputKind file = none) :
    inputLoop w i (file :: rest)
      = ([Effect.stderr (file ++ ": unknown format (we only support .osm and .txt)\n")],
          InputEnd.unknownFormat) := by
  rw [inputLoop]
  simp only [hk]

theorem inputLoop_mem (w : World) (fs : List String) (i : Nat) (x : Effect)
    (hx : x ∈ (inputLoop w i fs).1) :
    (∃ t, x = Effect.stderr t) ∨ x = Effect.osmParseStdin ∨ (∃ p, x = Effect.osmParseFile p)
      ∨ (∃ p, x = Effect.textParseFile p) ∨ (∃ n, x = Effect.processName n) := by
  induction fs generalizing i with
  | nil => simp [inputLoop] at hx
  | cons f rest ih =>
    cases hk : inputKind f with
    | none =>
      rw [inputLoop_cons_none w i f rest hk] at hx
      simp only [List.mem_singleton] at hx
      exact Or.inl ⟨_, hx⟩
    | some src =>
      rw [inputLoop_cons_some w i f rest src hk] at hx
      by_cases hok : (w.parse i src).ok = true
      · rw [if_pos hok] at hx
        simp only [List.mem_append] at hx
        rcases hx with h1 | h1
        · exact parseEffects_mem _ _ _ h1
        · exact ih (i + 1) h1
      · rw [if_neg hok] at hx
        exact parseEffects_mem _ _ _ hx

/-- The input loop on a list whose front part is read to the end. -/
theorem inputLoop_append (w : World) (before rest : List String) (i : Nat)
    (h : (inputLoop w i before).2 = InputEnd.done) :
    inputLoop w i (before ++ rest)
      = ((inputLoop w i before).1 ++ (inputLoop w (i + before.length) rest).1,
          (inputLoop w (i + before.length) rest).2) := by
  induction before generalizing i with
  | nil => simp [inputLoop]
  | cons f more ih =>
    cases hk : inputKind f with
    | none =>
      rw [inputLoop_cons_none w i f more hk] at h
      cases h
    | some src =>
      rw [inputLoop_cons_some w i f more src hk] at h
      rw [List.cons_append, inputLoop_cons_some w i f (more ++ rest) src hk,
        inputLoop_cons_some w i f more src hk]
      by_cases hok : (w.parse i src).ok = true
      · rw [if_pos hok] at h ⊢
        rw [if_pos hok]
        rw [ih (i + 1) h]
        simp only [List.length_cons, List.append_assoc]
        rw [show i + 1 + more.length = i + (more.length + 1) by omega]
      · rw [if_neg hok] at h
        cases h

/-- The input loop runs to its end exactly when every argument is taken by one of the
three parse branches and its parser returns. -/
theorem inputLoop_done_iff (w : World) (fs : List String) (i : Nat) :
    (inputLoop w i fs).2 = InputEnd.done
      ↔ ∀ k (hk : k < fs.length),
          ∃ src, inputKind (fs.get ⟨k, hk⟩) = some src ∧ (w.parse (i + k) src).ok = true := by
  induction fs generalizing i with
  | nil => simp [inputLoop]
  | cons f rest ih =>
    cases hkind : inputKind f with
    | none =>
      rw [inputLoop_cons_none w i f rest hkind]
      constructor
      · intro h
        cases h
      · intro h
        obtain ⟨s2, h1, _⟩ := h 0 (by simp)
        have h1' : inputKind f = some s2 := by simpa using h1
        rw [hkind] at h1'
        cases h1'
    | some src =>
      rw [inputLoop_cons_some w i f rest src hkind]
      by_cases hok : (w.parse i src).ok = true
      · rw [if_pos hok, ih (i + 1)]
        constructor
        · intro h k hk
          cases k with
          | zero => exact ⟨src, by simpa using hkind, by simpa using hok⟩
          | succ k =>
            obtain ⟨s2, h1, h2⟩ := h k (by simpa using hk)
            refine ⟨s2, by simpa using h1, ?_⟩
            rw [show i + (k + 1) = i + 1 + k by omega]
            exact h2
        · intro h k hk
          obtain ⟨s2, h1, h2⟩ := h (k + 1) (by simpa using hk)
          refine ⟨s2, by simpa using h1, ?_⟩
          rw [show i + 1 + k = i + (k + 1) by omega]
          exact h2
      · rw [if_neg hok]
        constructor
        · intro h
          cases h
        · intro h
          obtain ⟨s2, h1, h2⟩ := h 0 (by simp)
          have h1' : inputKind f = some s2 := by simpa using h1
          rw [hkind] at h1'
          cases h1'
          exact absurd (by simpa using h2) hok

theorem main_usage (K : FlagBits) (w : World) (opts : List GetoptResult) (files : List String)
    (code : Int) (h : optionLoop K Options.initial opts = .error code) :
    main K w opts files = ⟨[Effect.usage code], Outcome.exit code⟩ := by
  unfold main
  rw [h]

theorem main_no_input (K : FlagBits) (w : World) (opts : List GetoptResult) (parsed : Options)
    (h : optionLoop K Options.initial opts = .ok parsed) :
    main K w opts [] = ⟨[Effect.usage 1], Outcome.exit 1⟩ := by
  unfold main
  rw [h]
  simp

theorem main_load_threw (K : FlagBits) (w : World) (opts : List GetoptResult)
    (files : List String) (parsed : Options)
    (h : optionLoop K Options.initial opts = .ok parsed) (hfiles : files ≠ [])
    (hload : (loadLoop w 0 (applyDefaults parsed).datafiles).2 = false) :
    main K w opts files
      = ⟨[Effect.newLocale (applyDefaults parsed).localename, Effect.newDatabase]
            ++ (loadLoop w 0 (applyDefaults parsed).datafiles).1, Outcome.uncaught⟩ := by
  unfold main
  rw [h]
  simp [hfiles, hload]

theorem main_loaded (K : FlagBits) (w : World) (opts : List GetoptResult)
    (files : List String) (parsed : Options)
    (h : optionLoop K Options.initial opts = .ok parsed) (hfiles : files ≠ [])
    (hload : (loadLoop w 0 (applyDefaults parsed).datafiles).2 = true) :
    main K w opts files
      = ⟨[Effect.newLocale (applyDefaults parsed).localename, Effect.newDatabase]
            ++ (loadLoop w 0 (applyDefaults parsed).datafiles).1
            ++ setupEffects (applyDefaults parsed)
            ++ (inputLoop w 0 files).1
            ++ (if (inputLoop w 0 files).2 = InputEnd.done
                then dumpEffects (applyDefaults parsed) else []),
          outcomeOf (inputLoop w 0 files).2⟩ := by
  unfold main
  rw [h]
  simp only [hload, if_true]
  have hne : files.isEmpty = false := by
    cases files with
    | nil => exact absurd rfl hfiles
    | cons _ _ => rfl
  simp only [hne, Bool.false_eq_true, if_false]
  cases hend : (inputLoop w 0 files).2 <;> simp [outcomeOf]

/-! ## Order of the phases -/

theorem split_at_processing (A B pre post : List Effect) (e : Effect)
    (h : A ++ B = pre ++ e :: post) (hA : ∀ x ∈ A, x.isProcessing = false)
    (he : e.isProcessing = true) : ∃ mid, pre = A ++ mid ∧ B = mid ++ e :: post := by
  rcases List.append_eq_append_iff.mp h with ⟨a, h1, h2⟩ | ⟨c, h1, h2⟩
  · exact ⟨a, h1, h2⟩
  · cases c with
    | nil =>
      refine ⟨[], ?_, ?_⟩
      · simpa using h1.symm
      · simpa using h2.symm
    | cons c0 rest =>
      simp only [List.cons_append, List.cons.injEq] at h2
      have hmem : e ∈ A := by
        rw [h1, h2.1]
        simp
      rw [hA e hmem] at he
      cases he

theorem loaded_nonprocessing (w : World) (ds : List String) (i : Nat) :
    ∀ x ∈ (loadLoop w i ds).1,
      x.isProcessing = false ∧ x.isNewAggregator = false ∧ x.isDump = false := by
  intro x hx
  rcases loadLoop_mem w ds i x hx with ⟨t, rfl⟩ | ⟨p, rfl⟩ <;>
    simp [Effect.isProcessing, Effect.isNewAggregator, Effect.isDump]

theorem input_nonload (w : World) (fs : List String) (i : Nat) :
    ∀ x ∈ (inputLoop w i fs).1,
      x.isLoad = false ∧ x.isNewAggregator = false ∧ x.isDump = false := by
  intro x hx
  rcases inputLoop_mem w fs i x hx with ⟨t, rfl⟩ | rfl | ⟨p, rfl⟩ | ⟨p, rfl⟩ | ⟨n, rfl⟩ <;>
    simp [Effect.isLoad, Effect.isNewAggregator, Effect.isDump]

theorem setup_mem (o : Options) (x : Effect) (hx : x ∈ setupEffects o) :
    x = Effect.newAggregator o.flags o.spelldistance ∨ (∃ t, x = Effect.addAddrTag t)
      ∨ (∃ t, x = Effect.addNameTag t) := by
  simp only [setupEffects, List.mem_append, List.mem_singleton, List.mem_map] at hx
  rcases hx with (h1 | ⟨t, _, h1⟩) | ⟨t, _, h1⟩
  · exact Or.inl h1
  · exact Or.inr (Or.inl ⟨t, h1.symm⟩)
  · exact Or.inr (Or.inr ⟨t, h1.symm⟩)

theorem setup_quiet (o : Options) :
    ∀ x ∈ setupEffects o, x.isLoad = false ∧ x.isProcessing = false ∧ x.isDump = false := by
  intro x hx
  rcases setup_mem o x hx with rfl | ⟨t, rfl⟩ | ⟨t, rfl⟩ <;>
    simp [Effect.isLoad, Effect.isProcessing, Effect.isDump]

theorem dump_mem (o : Options) (x : Effect) (hx : x ∈ dumpEffects o) :
    x = Effect.stderr "Dumping data...\n" ∨ x = Effect.dumpData ∨ x = Effect.dumpStats := by
  unfold dumpEffects at hx
  cases o.dumpflag <;> simp at hx <;> tauto

theorem dump_quiet (o : Options) :
    ∀ x ∈ dumpEffects o, x.isLoad = false ∧ x.isProcessing = false := by
  intro x hx
  rcases dump_mem o x hx with rfl | rfl | rfl <;> simp [Effect.isLoad, Effect.isProcessing]

theorem loadedPaths_loaded_run (w : World) (o : Options)
    (hload : (loadLoop w 0 o.datafiles).2 = true) :
    loadedPaths ([Effect.newLocale o.localename, Effect.newDatabase]
        ++ (loadLoop w 0 o.datafiles).1 ++ setupEffects o) = o.datafiles := by
  obtain ⟨n, _, hp, hfull, _, _, _⟩ := loadLoop_paths w o.datafiles 0
  rw [loadedPaths_append, loadedPaths_append, hp, hfull hload,
    loadedPaths_eq_nil _ (fun x hx => (setup_quiet o x hx).1)]
  simp [loadedPaths]

/-- C1: in the trace of effects of `main`, for every `getopt` result sequence, every list
of operands and every behaviour of the outside, whenever a parse call or a
`NameAggregator::ProcessName` call `e` occurs, no `Database.Load` occurs after it, and the
`Load` calls that occurred before it are the calls for all dictionary sources, in order. -/
theorem C1_loads_precede_processing (K : FlagBits) (w : World) (opts : List GetoptResult)
    (files : List String) (pre post : List Effect) (e : Effect)
    (hsplit : (main K w opts files).trace = pre ++ e :: post)
    (he : e.isProcessing = true) :
    (∀ x ∈ post, x.isLoad = false)
    ∧ ∃ parsed, optionLoop K Options.initial opts = .ok parsed
        ∧ loadedPaths pre = (applyDefaults parsed).datafiles := by
  have hmem : e ∈ (main K w opts files).trace := by rw [hsplit]; simp
  cases hopt : optionLoop K Options.initial opts with
  | error code =>
    rw [main_usage K w opts files code hopt] at hmem
    simp only [List.mem_singleton] at hmem
    rw [hmem] at he
    cases he
  | ok parsed =>
    by_cases hfiles : files = []
    · subst hfiles
      rw [main_no_input K w opts parsed hopt] at hmem
      simp only [List.mem_singleton] at hmem
      rw [hmem] at he
      cases he
    · cases hload : (loadLoop w 0 (applyDefaults parsed).datafiles).2 with
      | false =>
        rw [main_load_threw K w opts files parsed hopt hfiles hload] at hmem
        simp only [List.cons_append, List.nil_append, List.mem_cons] at hmem
        rcases hmem with h1 | h1 | h1
        · rw [h1] at he; cases he
        · rw [h1] at he; cases he
        · rw [(loaded_nonprocessing w _ 0 e h1).1] at he
          cases he
      | true =>
        rw [main_loaded K w opts files parsed hopt hfiles hload] at hsplit
        simp only [List.append_assoc] at hsplit
        rw [← List.append_assoc, ← List.append_assoc] at hsplit
        have hA : ∀ x ∈ ([Effect.newLocale (applyDefaults parsed).localename,
            Effect.newDatabase] ++ (loadLoop w 0 (applyDefaults parsed).datafiles).1)
            ++ setupEffects (applyDefaults parsed), x.isProcessing = false := by
          intro x hx
          simp only [List.mem_append, List.mem_cons, List.mem_singleton, List.not_mem_nil,
            or_false] at hx
          rcases hx with ((h1 | h1) | h1) | h1
          · rw [h1]; rfl
          · rw [h1]; rfl
          · exact (loaded_nonprocessing w _ 0 x h1).1
          · exact (setup_quiet _ x h1).2.1
        obtain ⟨mid, hpre, hB⟩ := split_at_processing _ _ pre post e hsplit hA he
        have hBload : ∀ x ∈ (inputLoop w 0 files).1
            ++ (if (inputLoop w 0 files).2 = InputEnd.done
                then dumpEffects (applyDefaults parsed) else []), x.isLoad = false := by
          intro x hx
          simp only [List.mem_append] at hx
          rcases hx with h1 | h1
          · exact (input_nonload w files 0 x h1).1
          · split_ifs at h1
            · exact (dump_quiet _ x h1).1
            · simp at h1
        refine ⟨fun x hx => hBload x (by rw [hB]; simp [hx]), parsed, rfl, ?_⟩
        rw [hpre, loadedPaths_append, loadedPaths_loaded_run w _ hload,
          loadedPaths_eq_nil mid (fun x hx => hBload x (by rw [hB]; simp [hx]))]
        simp

/-- C1, at a run with two dictionary sources, no tags and one OSM input. -/
theorem C1_loads_precede_processing_witness :
    (main FlagBits.sample (World.quiet ["Lenina"])
        [⟨'f', "a.txt"⟩, ⟨'A', ""⟩, ⟨'f', "b.txt"⟩, ⟨'N', ""⟩] ["x.osm"]).trace
      = [Effect.newLocale "ru_RU", Effect.newDatabase,
          Effect.stderr "Loading database \"a.txt\"...\n", Effect.load "a.txt",
          Effect.stderr "Loading database \"b.txt\"...\n", Effect.load "b.txt",
          Effect.newAggregator 0 1,
          Effect.stderr "Processing file \"x.osm\" as OSM data...\n"]
        ++ Effect.osmParseFile "x.osm" :: [Effect.processName "Lenina", Effect.dumpStats]
    ∧ (Effect.osmParseFile "x.osm").isProcessing = true
    ∧ (∀ x ∈ [Effect.processName "Lenina", Effect.dumpStats], x.isLoad = false)
    ∧ ∃ parsed, optionLoop FlagBits.sample Options.initial
          [⟨'f', "a.txt"⟩, ⟨'A', ""⟩, ⟨'f', "b.txt"⟩, ⟨'N', ""⟩] = .ok parsed
        ∧ loadedPaths [Effect.newLocale "ru_RU", Effect.newDatabase,
            Effect.stderr "Loading database \"a.txt\"...\n", Effect.load "a.txt",
            Effect.stderr "Loading database \"b.txt\"...\n", Effect.load "b.txt",
            Effect.newAggregator 0 1,
            Effect.stderr "Processing file \"x.osm\" as OSM data...\n"]
          = (applyDefaults parsed).datafiles :=
  ⟨by decide, rfl,
    C1_loads_precede_processing FlagBits.sample (World.quiet ["Lenina"])
      [⟨'f', "a.txt"⟩, ⟨'A', ""⟩, ⟨'f', "b.txt"⟩, ⟨'N', ""⟩] ["x.osm"]
      [Effect.newLocale "ru_RU", Effect.newDatabase,
        Effect.stderr "Loading database \"a.txt\"...\n", Effect.load "a.txt",
        Effect.stderr "Loading database \"b.txt\"...\n", Effect.load "b.txt",
        Effect.newAggregator 0 1,
        Effect.stderr "Processing file \"x.osm\" as OSM data...\n"]
      [Effect.processName "Lenina", Effect.dumpStats] (Effect.osmParseFile "x.osm")
      (by decide) rfl⟩

/-! ## Load failure, dictionary sources, tags -/

theorem start_loaded_mem (w : World) (o : Options) (x : Effect)
    (hx : x ∈ [Effect.newLocale o.localename, Effect.newDatabase] ++ (loadLoop w 0 o.datafiles).1) :
    x = Effect.newLocale o.localename ∨ x = Effect.newDatabase ∨ (∃ t, x = Effect.stderr t)
      ∨ (∃ p, x = Effect.load p) := by
  simp only [List.cons_append, List.nil_append, List.mem_cons] at hx
  rcases hx with h1 | h1 | h1
  · exact Or.inl h1
  · exact Or.inr (Or.inl h1)
  · exact Or.inr (Or.inr (loadLoop_mem w _ 0 x h1))

/-- C2: when the `k`-th `Database.Load` of a run that reached the load loop throws, `main`
ends there with the exception: the trace holds no construction of a `NameAggregator`, no
parse call, no `ProcessName`, no `DumpData` and no `DumpStats`, and the `Load` calls made
are those for the first `n` dictionary sources for some `n` between 1 and `k + 1`.  This
holds for every list of dictionary sources and every position `k` in it. -/
theorem C2_load_failure_aborts (K : FlagBits) (w : World) (opts : List GetoptResult)
    (files : List String) (parsed : Options)
    (hopt : optionLoop K Options.initial opts = .ok parsed) (hfiles : files ≠ [])
    (k : Nat) (hk : k < (applyDefaults parsed).datafiles.length)
    (hthrows : w.loadOk k ((applyDefaults parsed).datafiles.get ⟨k, hk⟩) = false) :
    (main K w opts files).outcome = Outcome.uncaught
    ∧ (∀ x ∈ (main K w opts files).trace,
        x.isNewAggregator = false ∧ x.isProcessing = false ∧ x.isDump = false)
    ∧ ∃ n, 0 < n ∧ n ≤ k + 1
        ∧ loadedPaths (main K w opts files).trace = (applyDefaults parsed).datafiles.take n := by
  have hbad : w.loadOk (0 + k) ((applyDefaults parsed).datafiles.get ⟨k, hk⟩) = false := by
    simpa using hthrows
  obtain ⟨hflag, n, hpos, hle, hp⟩ := loadLoop_throws w _ 0 k hk hbad
  rw [main_load_threw K w opts files parsed hopt hfiles hflag]
  refine ⟨rfl, ?_, n, hpos, hle, ?_⟩
  · intro x hx
    rcases start_loaded_mem w _ x hx with rfl | rfl | ⟨t, rfl⟩ | ⟨p, rfl⟩ <;>
      simp [Effect.isProcessing, Effect.isNewAggregator, Effect.isDump]
  · show loadedPaths ([Effect.newLocale (applyDefaults parsed).localename, Effect.newDatabase]
        ++ (loadLoop w 0 (applyDefaults parsed).datafiles).1) = _
    rw [loadedPaths_append, hp]
    simp [loadedPaths]

/-- C2, at a run with three dictionary sources of which the second cannot be loaded. -/
theorem C2_load_failure_aborts_witness :
    optionLoop FlagBits.sample Options.initial
        [⟨'f', "a.txt"⟩, ⟨'d', ""⟩, ⟨'f', "b.txt"⟩, ⟨'f', "c.txt"⟩]
      = .ok { Options.initial with dumpflag := true, datafiles := ["a.txt", "b.txt", "c.txt"] }
    ∧ ["x.osm"] ≠ []
    ∧ (World.loadThrowsAt 1).loadOk 1 "b.txt" = false
    ∧ (main FlagBits.sample (World.loadThrowsAt 1)
        [⟨'f', "a.txt"⟩, ⟨'d', ""⟩, ⟨'f', "b.txt"⟩, ⟨'f', "c.txt"⟩] ["x.osm"]).outcome
      = Outcome.uncaught
    ∧ (∀ x ∈ (main FlagBits.sample (World.loadThrowsAt 1)
        [⟨'f', "a.txt"⟩, ⟨'d', ""⟩, ⟨'f', "b.txt"⟩, ⟨'f', "c.txt"⟩] ["x.osm"]).trace,
        x.isNewAggregator = false ∧ x.isProcessing = false ∧ x.isDump = false)
    ∧ ∃ n, 0 < n ∧ n ≤ 1 + 1
        ∧ loadedPaths (main FlagBits.sample (World.loadThrowsAt 1)
            [⟨'f', "a.txt"⟩, ⟨'d', ""⟩, ⟨'f', "b.txt"⟩, ⟨'f', "c.txt"⟩] ["x.osm"]).trace
          = (applyDefaults
              { Options.initial with dumpflag := true,
                                     datafiles := ["a.txt", "b.txt", "c.txt"] }).datafiles.take n :=
  ⟨rfl, by decide, rfl,
    C2_load_failure_aborts FlagBits.sample (World.loadThrowsAt 1)
      [⟨'f', "a.txt"⟩, ⟨'d', ""⟩, ⟨'f', "b.txt"⟩, ⟨'f', "c.txt"⟩] ["x.osm"]
      { Options.initial with dumpflag := true, datafiles := ["a.txt", "b.txt", "c.txt"] }
      rfl (by decide) 1 (by decide) rfl⟩

theorem count_newDatabase_loaded (w : World) (ds : List String) (i : Nat) :
    (loadLoop w i ds).1.count Effect.newDatabase = 0 := by
  rw [List.count_eq_zero]
  intro hmem
  rcases loadLoop_mem w ds i _ hmem with ⟨t, h⟩ | ⟨p, h⟩ <;> cases h

theorem count_newDatabase_input (w : World) (fs : List String) (i : Nat) :
    (inputLoop w i fs).1.count Effect.newDatabase = 0 := by
  rw [List.count_eq_zero]
  intro hmem
  rcases inputLoop_mem w fs i _ hmem with ⟨t, h⟩ | h | ⟨p, h⟩ | ⟨p, h⟩ | ⟨n, h⟩ <;> cases h

theorem count_newDatabase_setup (o : Options) :
    (setupEffects o).count Effect.newDatabase = 0 := by
  rw [List.count_eq_zero]
  intro hmem
  rcases setup_mem o _ hmem with h | ⟨t, h⟩ | ⟨t, h⟩ <;> cases h

theorem count_newDatabase_dump (o : Options) :
    (dumpEffects o).count Effect.newDatabase = 0 := by
  rw [List.count_eq_zero]
  intro hmem
  rcases dump_mem o _ hmem with h | h | h <;> cases h

/-- C9, refuted as stated: with `-f streets.txt` the list of paths passed to
`Database.Load` is the single default path although a `-f` option was given; the run is
the run of the command line without `-f`.  So "the list is the single default path if and
only if no `-f` was given" fails from right to left. -/
theorem C9_counterexample :
    optargsOf 'f' [⟨'f', "streets.txt"⟩] = ["streets.txt"]
    ∧ loadedPaths (main FlagBits.sample (World.quiet []) [⟨'f', "streets.txt"⟩]
        ["a.osm"]).trace = [DEFAULT_DATAFILE]
    ∧ main FlagBits.sample (World.quiet []) [⟨'f', "streets.txt"⟩] ["a.osm"]
      = main FlagBits.sample (World.quiet []) [] ["a.osm"]
    ∧ ¬ (loadedPaths (main FlagBits.sample (World.quiet []) [⟨'f', "streets.txt"⟩]
          ["a.osm"]).trace = [DEFAULT_DATAFILE]
        ↔ optargsOf 'f' [⟨'f', "streets.txt"⟩] = []) := by
  decide

/-- C9, amended: in every run that reaches the load loop there is one `Database`, and the
paths `main` has for `Database.Load` are the `-f` arguments in command-line order, repeats
included, when `-f` was given, and the single path `DEFAULT_DATAFILE` when it was not; the
list is never empty, and it equals the single default path exactly when no `-f` was given
or the only `-f` argument is `streets.txt`.  The `Load` calls of the trace go through this
list from its start (at least one call is made) and, when no `Load` throws, through all
of it. -/
theorem C9_dictionary_sources (K : FlagBits) (w : World) (opts : List GetoptResult)
    (files : List String) (parsed : Options)
    (hopt : optionLoop K Options.initial opts = .ok parsed) (hfiles : files ≠ []) :
    (applyDefaults parsed).datafiles
        = (if optargsOf 'f' opts = [] then [DEFAULT_DATAFILE] else optargsOf 'f' opts)
    ∧ (optargsOf 'f' opts ≠ [] → (applyDefaults parsed).datafiles = optargsOf 'f' opts)
    ∧ (optargsOf 'f' opts = [] → (applyDefaults parsed).datafiles = ["streets.txt"])
    ∧ (applyDefaults parsed).datafiles ≠ []
    ∧ loadedPaths (main K w opts files).trace <+: (applyDefaults parsed).datafiles
    ∧ loadedPaths (main K w opts files).trace ≠ []
    ∧ ((∀ k (hk : k < (applyDefaults parsed).datafiles.length),
          w.loadOk k ((applyDefaults parsed).datafiles.get ⟨k, hk⟩) = true)
        → loadedPaths (main K w opts files).trace = (applyDefaults parsed).datafiles)
    ∧ (main K w opts files).trace.count Effect.newDatabase = 1
    ∧ ((applyDefaults parsed).datafiles = [DEFAULT_DATAFILE]
        ↔ (optargsOf 'f' opts = [] ∨ optargsOf 'f' opts = ["streets.txt"])) := by
  have hD : (applyDefaults parsed).datafiles
      = (if optargsOf 'f' opts = [] then [DEFAULT_DATAFILE] else optargsOf 'f' opts) := by
    rw [(applyDefaults_fields parsed).1, (optionLoop_ok K opts _ _ hopt).1]
    simp [Options.initial]
  have hne : (applyDefaults parsed).datafiles ≠ [] := by
    rw [hD]
    split_ifs with h
    · simp
    · exact h
  have hiff : (applyDefaults parsed).datafiles = [DEFAULT_DATAFILE]
      ↔ (optargsOf 'f' opts = [] ∨ optargsOf 'f' opts = ["streets.txt"]) := by
    rw [hD]
    split_ifs with h
    · simp [h]
    · simp [h, DEFAULT_DATAFILE]
  obtain ⟨n, hn, hp, hfull, hpos, _, _⟩ := loadLoop_paths w (applyDefaults parsed).datafiles 0
  refine ⟨hD, ?_, ?_, hne, ?_⟩
  · intro h
    rw [hD, if_neg h]
  · intro h
    rw [hD, if_pos h]
    rfl
  cases hload : (loadLoop w 0 (applyDefaults parsed).datafiles).2 with
  | false =>
    rw [main_load_threw K w opts files parsed hopt hfiles hload]
    have hpaths : loadedPaths ([Effect.newLocale (applyDefaults parsed).localename,
        Effect.newDatabase] ++ (loadLoop w 0 (applyDefaults parsed).datafiles).1)
        = (applyDefaults parsed).datafiles.take n := by
      rw [loadedPaths_append, hp]
      simp [loadedPaths]
    refine ⟨?_, ?_, ?_, ?_, hiff⟩
    · show loadedPaths _ <+: _
      rw [hpaths]
      exact List.take_prefix _ _
    · show loadedPaths _ ≠ _
      rw [hpaths]
      intro h0
      have hlen := congrArg List.length h0
      have := hpos hne
      simp only [List.length_take, List.length_nil] at hlen
      omega
    · intro hall
      have := loadLoop_ok_of_all w (applyDefaults parsed).datafiles 0 (by simpa using hall)
      rw [this] at hload
      cases hload
    · show List.count _ _ = 1
      rw [List.count_append, count_newDatabase_loaded]
      simp
  | true =>
    rw [main_loaded K w opts files parsed hopt hfiles hload]
    have hpaths : loadedPaths ([Effect.newLocale (applyDefaults parsed).localename,
        Effect.newDatabase] ++ (loadLoop w 0 (applyDefaults parsed).datafiles).1
        ++ setupEffects (applyDefaults parsed) ++ (inputLoop w 0 files).1
        ++ (if (inputLoop w 0 files).2 = InputEnd.done
            then dumpEffects (applyDefaults parsed) else []))
        = (applyDefaults parsed).datafiles := by
      rw [loadedPaths_append, loadedPaths_append, loadedPaths_loaded_run w _ hload,
        loadedPaths_eq_nil _ (fun x hx => (input_nonload w files 0 x hx).1)]
      rw [loadedPaths_eq_nil]
      · simp
      · intro x hx
        split_ifs at hx
        · exact (dump_quiet _ x hx).1
        · simp at hx
    refine ⟨?_, ?_, ?_, ?_, hiff⟩
    · show loadedPaths _ <+: _
      rw [hpaths]
    · show loadedPaths _ ≠ _
      rw [hpaths]
      exact hne
    · intro _
      exact hpaths
    · show List.count _ _ = 1
      rw [List.count_append, List.count_append, List.count_append, List.count_append,
        count_newDatabase_loaded, count_newDatabase_setup, count_newDatabase_input]
      split_ifs
      · rw [count_newDatabase_dump]
        simp
      · simp

/-- C9, at a run with a repeated `-f` argument. -/
theorem C9_dictionary_sources_witness :
    optionLoop FlagBits.sample Options.initial
        [⟨'f', "a.txt"⟩, ⟨'s', ""⟩, ⟨'f', "b.txt"⟩, ⟨'f', "a.txt"⟩]
      = .ok { Options.initial with flags := 1, datafiles := ["a.txt", "b.txt", "a.txt"] }
    ∧ ["x.osm"] ≠ []
    ∧ loadedPaths (main FlagBits.sample (World.quiet [])
        [⟨'f', "a.txt"⟩, ⟨'s', ""⟩, ⟨'f', "b.txt"⟩, ⟨'f', "a.txt"⟩] ["x.osm"]).trace
      = ["a.txt", "b.txt", "a.txt"] :=
  ⟨rfl, by decide,
    (C9_dictionary_sources FlagBits.sample (World.quiet [])
      [⟨'f', "a.txt"⟩, ⟨'s', ""⟩, ⟨'f', "b.txt"⟩, ⟨'f', "a.txt"⟩] ["x.osm"]
      { Options.initial with flags := 1, datafiles := ["a.txt", "b.txt", "a.txt"] }
      rfl (by decide)).2.2.2.2.2.2.1 (fun _ _ => rfl)⟩

/-! ## Tags and dumps -/

theorem addrTagsOf_append (a b : List Effect) :
    addrTagsOf (a ++ b) = addrTagsOf a ++ addrTagsOf b := by
  simp [addrTagsOf]

theorem nameTagsOf_append (a b : List Effect) :
    nameTagsOf (a ++ b) = nameTagsOf a ++ nameTagsOf b := by
  simp [nameTagsOf]

theorem tagsOf_eq_nil (t : List Effect) (h : ∀ x ∈ t, x.isTag = false) :
    addrTagsOf t = [] ∧ nameTagsOf t = [] := by
  induction t with
  | nil => exact ⟨rfl, rfl⟩
  | cons e rest ih =>
    have he := h e (List.mem_cons_self _ _)
    have hrest := ih (fun x hx => h x (List.mem_cons_of_mem _ hx))
    cases e <;> simp_all [addrTagsOf, nameTagsOf, Effect.isTag]

theorem addrTagsOf_map_addr (tags : List String) :
    addrTagsOf (tags.map Effect.addAddrTag) = tags
      ∧ nameTagsOf (tags.map Effect.addAddrTag) = [] := by
  induction tags with
  | nil => exact ⟨rfl, rfl⟩
  | cons t rest ih => simp_all [addrTagsOf, nameTagsOf]

theorem nameTagsOf_map_name (tags : List String) :
    nameTagsOf (tags.map Effect.addNameTag) = tags
      ∧ addrTagsOf (tags.map Effect.addNameTag) = [] := by
  induction tags with
  | nil => exact ⟨rfl, rfl⟩
  | cons t rest ih => simp_all [addrTagsOf, nameTagsOf]

theorem tagsOf_setup (o : Options) :
    addrTagsOf (setupEffects o) = o.addr_tags ∧ nameTagsOf (setupEffects o) = o.name_tags := by
  unfold setupEffects
  rw [addrTagsOf_append, addrTagsOf_append, nameTagsOf_append, nameTagsOf_append,
    (addrTagsOf_map_addr _).1, (addrTagsOf_map_addr _).2, (nameTagsOf_map_name _).1,
    (nameTagsOf_map_name _).2]
  simp [addrTagsOf, nameTagsOf]

theorem tagsOf_loaded_run (w : World) (o : Options) (files : List String) :
    addrTagsOf ([Effect.newLocale o.localename, Effect.newDatabase]
        ++ (loadLoop w 0 o.datafiles).1 ++ setupEffects o ++ (inputLoop w 0 files).1
        ++ (if (inputLoop w 0 files).2 = InputEnd.done then dumpEffects o else []))
      = o.addr_tags
    ∧ nameTagsOf ([Effect.newLocale o.localename, Effect.newDatabase]
        ++ (loadLoop w 0 o.datafiles).1 ++ setupEffects o ++ (inputLoop w 0 files).1
        ++ (if (inputLoop w 0 files).2 = InputEnd.done then dumpEffects o else []))
      = o.name_tags := by
  have h1 : ∀ x ∈ [Effect.newLocale o.localename, Effect.newDatabase]
      ++ (loadLoop w 0 o.datafiles).1, x.isTag = false := by
    intro x hx
    rcases start_loaded_mem w o x hx with rfl | rfl | ⟨t, rfl⟩ | ⟨p, rfl⟩ <;> rfl
  have h2 : ∀ x ∈ (inputLoop w 0 files).1, x.isTag = false := by
    intro x hx
    rcases inputLoop_mem w files 0 x hx with ⟨t, rfl⟩ | rfl | ⟨p, rfl⟩ | ⟨p, rfl⟩ | ⟨n, rfl⟩ <;>
      rfl
  have h3 : ∀ x ∈ (if (inputLoop w 0 files).2 = InputEnd.done then dumpEffects o else []),
      x.isTag = false := by
    intro x hx
    split_ifs at hx
    · rcases dump_mem o x hx with rfl | rfl | rfl <;> rfl
    · simp at hx
  constructor
  · rw [addrTagsOf_append, addrTagsOf_append, addrTagsOf_append, (tagsOf_eq_nil _ h1).1,
      (tagsOf_eq_nil _ h2).1, (tagsOf_eq_nil _ h3).1, (tagsOf_setup o).1]
    simp
  · rw [nameTagsOf_append, nameTagsOf_append, nameTagsOf_append, (tagsOf_eq_nil _ h1).2,
      (tagsOf_eq_nil _ h2).2, (tagsOf_eq_nil _ h3).2, (tagsOf_setup o).2]
    simp

/-- C10: in every run that gets past the load loop, the tags registered through
`AddAddrTag` are, in call order, the `-a` arguments in command-line order when at least one
`-a` was given (with or without `-A`), otherwise the six default addr tags in their order
when `-A` was not given, otherwise none; the tags registered through `AddNameTag` are
given in the same way by `-n`, `-N` and the default set `["name"]`.  The addr tags are a
function of the `-a` and `-A` options alone and the name tags of `-n` and `-N` alone. -/
theorem C10_registered_tags (K : FlagBits) (w : World) (opts : List GetoptResult)
    (files : List String) (parsed : Options)
    (hopt : optionLoop K Options.initial opts = .ok parsed) (hfiles : files ≠ [])
    (hload : ∀ k (hk : k < (applyDefaults parsed).datafiles.length),
      w.loadOk k ((applyDefaults parsed).datafiles.get ⟨k, hk⟩) = true) :
    addrTagsOf (main K w opts files).trace
        = (if optargsOf 'a' opts ≠ [] then optargsOf 'a' opts
           else if given 'A' opts = false then
             ["addr:street", "addr:street1", "addr:street2", "addr:street3", "addr2:street",
               "addr3:street"]
           else [])
    ∧ nameTagsOf (main K w opts files).trace
        = (if optargsOf 'n' opts ≠ [] then optargsOf 'n' opts
           else if given 'N' opts = false then ["name"]
           else []) := by
  have hflag := loadLoop_ok_of_all w (applyDefaults parsed).datafiles 0 (by simpa using hload)
  rw [main_loaded K w opts files parsed hopt hfiles hflag]
  obtain ⟨_, ha, hn, _, hua, hun, _⟩ := optionLoop_ok K opts _ _ hopt
  obtain ⟨_, hda, hdn, _⟩ := applyDefaults_fields parsed
  have htags := tagsOf_loaded_run w (applyDefaults parsed) files
  constructor
  · show addrTagsOf _ = _
    rw [htags.1, hda, ha, hua]
    by_cases h1 : optargsOf 'a' opts = [] <;> cases hA : given 'A' opts <;>
      simp [h1, Options.initial, default_addr_tags]
  · show nameTagsOf _ = _
    rw [htags.2, hdn, hn, hun]
    by_cases h1 : optargsOf 'n' opts = [] <;> cases hN : given 'N' opts <;>
      simp [h1, Options.initial, default_name_tags]

/-- C10, at a run with `-A`, two `-a` arguments and `-N`. -/
theorem C10_registered_tags_witness :
    optionLoop FlagBits.sample Options.initial
        [⟨'a', "addr:street"⟩, ⟨'A', ""⟩, ⟨'N', ""⟩, ⟨'a', "addr:place"⟩]
      = .ok { Options.initial with use_default_addr_tags := false,
                                   use_default_name_tags := false,
                                   addr_tags := ["addr:street", "addr:place"] }
    ∧ ["x.osm"] ≠ []
    ∧ addrTagsOf (main FlagBits.sample (World.quiet [])
        [⟨'a', "addr:street"⟩, ⟨'A', ""⟩, ⟨'N', ""⟩, ⟨'a', "addr:place"⟩] ["x.osm"]).trace
      = (if optargsOf 'a' [⟨'a', "addr:street"⟩, ⟨'A', ""⟩, ⟨'N', ""⟩, ⟨'a', "addr:place"⟩] ≠ []
         then optargsOf 'a' [⟨'a', "addr:street"⟩, ⟨'A', ""⟩, ⟨'N', ""⟩, ⟨'a', "addr:place"⟩]
         else if given 'A' [⟨'a', "addr:street"⟩, ⟨'A', ""⟩, ⟨'N', ""⟩, ⟨'a', "addr:place"⟩]
              = false then
           ["addr:street", "addr:street1", "addr:street2", "addr:street3", "addr2:street",
             "addr3:street"]
         else [])
    ∧ nameTagsOf (main FlagBits.sample (World.quiet [])
        [⟨'a', "addr:street"⟩, ⟨'A', ""⟩, ⟨'N', ""⟩, ⟨'a', "addr:place"⟩] ["x.osm"]).trace
      = (if optargsOf 'n' [⟨'a', "addr:street"⟩, ⟨'A', ""⟩, ⟨'N', ""⟩, ⟨'a', "addr:place"⟩] ≠ []
         then optargsOf 'n' [⟨'a', "addr:street"⟩, ⟨'A', ""⟩, ⟨'N', ""⟩, ⟨'a', "addr:place"⟩]
         else if given 'N' [⟨'a', "addr:street"⟩, ⟨'A', ""⟩, ⟨'N', ""⟩, ⟨'a', "addr:place"⟩]
              = false then ["name"]
         else []) :=
  ⟨rfl, by decide,
    C10_registered_tags FlagBits.sample (World.quiet [])
      [⟨'a', "addr:street"⟩, ⟨'A', ""⟩, ⟨'N', ""⟩, ⟨'a', "addr:place"⟩] ["x.osm"]
      { Options.initial with use_default_addr_tags := false, use_default_name_tags := false,
                             addr_tags := ["addr:street", "addr:place"] }
      rfl (by decide) (fun _ _ => rfl)⟩

/-- C5: for every option sequence that the option loop accepts and every non-empty list
of input files that are all processed to the end, the trace of `main` ends with the
message and `DumpData` exactly when `-d` was given, then `DumpStats` exactly once, and
`main` returns 0; before that tail there is no dump call, and the tail holds no
`ProcessName` and no parse call. -/
theorem C5_dump_stats_always (K : FlagBits) (w : World) (opts : List GetoptResult)
    (files : List String) (parsed : Options)
    (hopt : optionLoop K Options.initial opts = .ok parsed) (hfiles : files ≠ [])
    (hload : ∀ k (hk : k < (applyDefaults parsed).datafiles.length),
      w.loadOk k ((applyDefaults parsed).datafiles.get ⟨k, hk⟩) = true)
    (hinput : (inputLoop w 0 files).2 = InputEnd.done) :
    (main K w opts files).outcome = Outcome.exit 0
    ∧ ∃ before, (main K w opts files).trace
          = before
            ++ (if given 'd' opts = true then [Effect.stderr "Dumping data...\n", Effect.dumpData]
                else [])
            ++ [Effect.dumpStats]
        ∧ (∀ x ∈ before, x.isDump = false)
        ∧ (main K w opts files).trace.count Effect.dumpStats = 1
        ∧ (main K w opts files).trace.count Effect.dumpData
            = (if given 'd' opts = true then 1 else 0) := by
  have hflag := loadLoop_ok_of_all w (applyDefaults parsed).datafiles 0 (by simpa using hload)
  rw [main_loaded K w opts files parsed hopt hfiles hflag]
  have hd : (applyDefaults parsed).dumpflag = given 'd' opts := by
    rw [(applyDefaults_fields parsed).2.2.2.1, (optionLoop_ok K opts _ _ hopt).2.2.2.1]
    simp [Options.initial]
  have hbefore : ∀ x ∈ [Effect.newLocale (applyDefaults parsed).localename, Effect.newDatabase]
      ++ (loadLoop w 0 (applyDefaults parsed).datafiles).1
      ++ setupEffects (applyDefaults parsed) ++ (inputLoop w 0 files).1, x.isDump = false := by
    intro x hx
    rw [List.mem_append, List.mem_append] at hx
    rcases hx with (h1 | h1) | h1
    · rcases start_loaded_mem w _ x h1 with rfl | rfl | ⟨t, rfl⟩ | ⟨p, rfl⟩ <;> rfl
    · exact (setup_quiet _ x h1).2.2
    · exact (input_nonload w files 0 x h1).2.2
  have hcount : ∀ (e : Effect), e.isDump = true →
      ([Effect.newLocale (applyDefaults parsed).localename, Effect.newDatabase]
      ++ (loadLoop w 0 (applyDefaults parsed).datafiles).1
      ++ setupEffects (applyDefaults parsed) ++ (inputLoop w 0 files).1).count e = 0 := by
    intro e he
    rw [List.count_eq_zero]
    intro hmem
    rw [hbefore e hmem] at he
    cases he
  simp only [hinput, if_true, outcomeOf, true_and]
  refine ⟨_, ?_, hbefore, ?_, ?_⟩
  · rw [List.append_assoc]
    unfold dumpEffects
    rw [hd]
    cases given 'd' opts <;> simp
  · rw [List.count_append, hcount Effect.dumpStats rfl]
    unfold dumpEffects
    cases (applyDefaults parsed).dumpflag <;> simp
  · rw [List.count_append, hcount Effect.dumpData rfl]
    unfold dumpEffects
    rw [hd]
    cases given 'd' opts <;> simp

/-- C5, at a run with `-d` and two inputs. -/
theorem C5_dump_stats_always_witness :
    optionLoop FlagBits.sample Options.initial [⟨'c', ""⟩, ⟨'d', ""⟩]
      = .ok { Options.initial with flags := 2, dumpflag := true }
    ∧ ["x.osm", "y.txt"] ≠ []
    ∧ (inputLoop (World.quiet ["Lenina"]) 0 ["x.osm", "y.txt"]).2 = InputEnd.done
    ∧ (main FlagBits.sample (World.quiet ["Lenina"]) [⟨'c', ""⟩, ⟨'d', ""⟩]
        ["x.osm", "y.txt"]).outcome = Outcome.exit 0
    ∧ ∃ before, (main FlagBits.sample (World.quiet ["Lenina"]) [⟨'c', ""⟩, ⟨'d', ""⟩]
          ["x.osm", "y.txt"]).trace
          = before
            ++ (if given 'd' [⟨'c', ""⟩, ⟨'d', ""⟩] = true
                then [Effect.stderr "Dumping data...\n", Effect.dumpData] else [])
            ++ [Effect.dumpStats]
        ∧ (∀ x ∈ before, x.isDump = false)
        ∧ (main FlagBits.sample (World.quiet ["Lenina"]) [⟨'c', ""⟩, ⟨'d', ""⟩]
            ["x.osm", "y.txt"]).trace.count Effect.dumpStats = 1
        ∧ (main FlagBits.sample (World.quiet ["Lenina"]) [⟨'c', ""⟩, ⟨'d', ""⟩]
            ["x.osm", "y.txt"]).trace.count Effect.dumpData
            = (if given 'd' [⟨'c', ""⟩, ⟨'d', ""⟩] = true then 1 else 0) :=
  ⟨rfl, by decide, by decide,
    C5_dump_stats_always FlagBits.sample (World.quiet ["Lenina"]) [⟨'c', ""⟩, ⟨'d', ""⟩]
      ["x.osm", "y.txt"] { Options.initial with flags := 2, dumpflag := true }
      rfl (by decide) (fun _ _ => rfl) (by decide)⟩

/-! ## A parser that throws -/

/-- C3, refuted as stated: the parser throws on the first of two input files; `main` does
not go on to the second file, makes no dump, and ends with the exception. -/
theorem C3_counterexample :
    ((World.parseThrowsAt 0 ["Lenina"]).parse 0 (Source.osmFile "a.osm")).ok = false
    ∧ main FlagBits.sample (World.parseThrowsAt 0 ["Lenina"]) [⟨'A', ""⟩, ⟨'N', ""⟩]
        ["a.osm", "b.txt"]
      = ⟨[Effect.newLocale "ru_RU", Effect.newDatabase,
          Effect.stderr "Loading database \"streets.txt\"...\n", Effect.load "streets.txt",
          Effect.newAggregator 0 1,
          Effect.stderr "Processing file \"a.osm\" as OSM data...\n",
          Effect.osmParseFile "a.osm", Effect.processName "Lenina"], Outcome.uncaught⟩
    ∧ Effect.textParseFile "b.txt"
        ∉ (main FlagBits.sample (World.parseThrowsAt 0 ["Lenina"]) [⟨'A', ""⟩, ⟨'N', ""⟩]
            ["a.osm", "b.txt"]).trace := by
  decide

/-- C3, amended: when the parser throws on an input source, the sources before it having
been read to the end, `main` does not catch the exception.  The run ends there with the
exception: its trace is the trace up to the input loop, then the effects of the sources
before the failing one, then the call on the failing source with the names it delivered
before it threw.  No dump call is made, and the sources after the failing one play no
part: the run is the same as if they were not on the command line. -/
theorem C3_parse_failure_ends_run (K : FlagBits) (w : World) (opts : List GetoptResult)
    (before after : List String) (file : String) (src : Source) (parsed : Options)
    (hopt : optionLoop K Options.initial opts = .ok parsed)
    (hload : ∀ k (hk : k < (applyDefaults parsed).datafiles.length),
      w.loadOk k ((applyDefaults parsed).datafiles.get ⟨k, hk⟩) = true)
    (hbefore : (inputLoop w 0 before).2 = InputEnd.done)
    (hkind : inputKind file = some src)
    (hthrows : (w.parse before.length src).ok = false) :
    (main K w opts (before ++ file :: after)).outcome = Outcome.uncaught
    ∧ (main K w opts (before ++ file :: after)).trace
        = [Effect.newLocale (applyDefaults parsed).localename, Effect.newDatabase]
          ++ (loadLoop w 0 (applyDefaults parsed).datafiles).1
          ++ setupEffects (applyDefaults parsed)
          ++ (inputLoop w 0 before).1
          ++ parseEffects src (w.parse before.length src)
    ∧ (∀ x ∈ (main K w opts (before ++ file :: after)).trace, x.isDump = false)
    ∧ main K w opts (before ++ file :: after) = main K w opts (before ++ [file]) := by
  have hflag := loadLoop_ok_of_all w (applyDefaults parsed).datafiles 0 (by simpa using hload)
  have hloop : ∀ rest, inputLoop w 0 (before ++ file :: rest)
      = ((inputLoop w 0 before).1 ++ parseEffects src (w.parse before.length src),
          InputEnd.threw) := by
    intro rest
    rw [inputLoop_append w before (file :: rest) 0 hbefore,
      inputLoop_cons_some w _ file rest src hkind]
    simp only [Nat.zero_add, hthrows, Bool.false_eq_true, if_false]
  have hne : ∀ rest, before ++ file :: rest ≠ [] := by
    intro rest
    simp
  have hrun : ∀ rest, main K w opts (before ++ file :: rest)
      = ⟨[Effect.newLocale (applyDefaults parsed).localename, Effect.newDatabase]
          ++ (loadLoop w 0 (applyDefaults parsed).datafiles).1
          ++ setupEffects (applyDefaults parsed)
          ++ (inputLoop w 0 before).1
          ++ parseEffects src (w.parse before.length src), Outcome.uncaught⟩ := by
    intro rest
    rw [main_loaded K w opts _ parsed hopt (hne rest) hflag, hloop rest]
    simp [outcomeOf]
  refine ⟨by rw [hrun after], by rw [hrun after], ?_, by rw [hrun after, hrun []]⟩
  rw [hrun after]
  intro x hx
  simp only [List.mem_append] at hx
  rcases hx with (((h1 | h1) | h1) | h1) | h1
  · simp only [List.mem_cons, List.mem_singleton, List.not_mem_nil, or_false] at h1
    rcases h1 with rfl | rfl <;> rfl
  · exact (loaded_nonprocessing w _ 0 x h1).2.2
  · exact (setup_quiet _ x h1).2.2
  · exact (input_nonload w before 0 x h1).2.2
  · rcases parseEffects_mem _ _ x h1 with ⟨t, rfl⟩ | rfl | ⟨p, rfl⟩ | ⟨p, rfl⟩ | ⟨n, rfl⟩ <;>
      rfl

/-- C3 amended, at a run of three inputs whose second cannot be read. -/
theorem C3_parse_failure_ends_run_witness :
    optionLoop FlagBits.sample Options.initial [⟨'A', ""⟩, ⟨'N', ""⟩]
      = .ok { Options.initial with use_default_addr_tags := false,
                                   use_default_name_tags := false }
    ∧ (inputLoop (World.parseThrowsAt 1 ["Lenina"]) 0 ["a.osm"]).2 = InputEnd.done
    ∧ inputKind "b.txt" = some (Source.textFile "b.txt")
    ∧ ((World.parseThrowsAt 1 ["Lenina"]).parse ["a.osm"].length (Source.textFile "b.txt")).ok
        = false
    ∧ main FlagBits.sample (World.parseThrowsAt 1 ["Lenina"]) [⟨'A', ""⟩, ⟨'N', ""⟩]
        (["a.osm"] ++ "b.txt" :: ["-"])
      = main FlagBits.sample (World.parseThrowsAt 1 ["Lenina"]) [⟨'A', ""⟩, ⟨'N', ""⟩]
        (["a.osm"] ++ ["b.txt"])
    ∧ main FlagBits.sample (World.parseThrowsAt 1 ["Lenina"]) [⟨'A', ""⟩, ⟨'N', ""⟩]
        (["a.osm"] ++ ["b.txt"])
      = ⟨[Effect.newLocale "ru_RU", Effect.newDatabase,
          Effect.stderr "Loading database \"streets.txt\"...\n", Effect.load "streets.txt",
          Effect.newAggregator 0 1,
          Effect.stderr "Processing file \"a.osm\" as OSM data...\n",
          Effect.osmParseFile "a.osm", Effect.processName "Lenina",
          Effect.stderr "Processing file \"b.txt\" as strings list...\n",
          Effect.textParseFile "b.txt", Effect.processName "Lenina"], Outcome.uncaught⟩ :=
  ⟨rfl, by decide, by decide, rfl,
    (C3_parse_failure_ends_run FlagBits.sample (World.parseThrowsAt 1 ["Lenina"])
      [⟨'A', ""⟩, ⟨'N', ""⟩] ["a.osm"] ["-"] "b.txt" (Source.textFile "b.txt")
      { Options.initial with use_default_addr_tags := false, use_default_name_tags := false }
      rfl (fun _ _ => rfl) (by decide) (by decide) rfl).2.2.2,
    by decide⟩

/-! ## The spell distance -/

theorem toInt32_range (n : Nat) :
    -(2 : Int) ^ 31 ≤ toInt32 n ∧ toInt32 n < (2 : Int) ^ 31
      ∧ (0 ≤ toInt32 n ↔ n % 2 ^ 32 < 2 ^ 31)
      ∧ (n < 2 ^ 31 → toInt32 n = (n : Int)) := by
  unfold toInt32
  have hlt : n % 2 ^ 32 < 2 ^ 32 := Nat.mod_lt _ (by norm_num)
  refine ⟨?_, ?_, ?_, ?_⟩
  · split_ifs <;> omega
  · split_ifs <;> omega
  · split_ifs with h
    · constructor
      · intro _
        exact h
      · intro _
        omega
    · constructor
      · intro h0
        omega
      · intro h1
        exact absurd h1 h
  · intro hn
    have : n % 2 ^ 32 = n := Nat.mod_eq_of_lt (by omega)
    rw [this, if_pos hn]

theorem passedSpellDistance_append (A B : List Effect)
    (h : ∀ x ∈ A, x.isNewAggregator = false) :
    passedSpellDistance (A ++ B) = passedSpellDistance B := by
  induction A with
  | nil => rfl
  | cons e rest ih =>
    have he := h e (List.mem_cons_self _ _)
    have := ih (fun x hx => h x (List.mem_cons_of_mem _ hx))
    cases e <;> simp_all [passedSpellDistance, Effect.isNewAggregator]

/-- C6, refuted as stated: with `-p 2147483648` the spell distance passed to the
`NameAggregator` constructor is `-2147483648`, and with `-p -1` it is `-1`. -/
theorem C6_counterexample :
    passedSpellDistance (main FlagBits.sample (World.quiet [])
        [⟨'p', "2147483648"⟩] ["a.osm"]).trace = some (-2147483648)
    ∧ passedSpellDistance (main FlagBits.sample (World.quiet [])
        [⟨'p', "-1"⟩] ["a.osm"]).trace = some (-1)
    ∧ ¬ ((0 : Int) ≤ toInt32 (strtoul "2147483648")) := by
  decide

/-- C6, amended: in every run that gets past the load loop the spell distance passed to
the `NameAggregator` constructor is 1 when no `-p` was given, and otherwise
`(int)strtoul(arg, 0, 10)` for the argument of the last `-p`.  That value is a 32-bit
signed integer; it is non-negative exactly when `strtoul(arg, 0, 10)` modulo `2^32` is below
`2^31`, and equals the parsed number when that number is below `2^31`. -/
theorem C6_spell_distance (K : FlagBits) (w : World) (opts : List GetoptResult)
    (files : List String) (parsed : Options)
    (hopt : optionLoop K Options.initial opts = .ok parsed) (hfiles : files ≠ [])
    (hload : ∀ k (hk : k < (applyDefaults parsed).datafiles.length),
      w.loadOk k ((applyDefaults parsed).datafiles.get ⟨k, hk⟩) = true) :
    passedSpellDistance (main K w opts files).trace = some (spellDistanceAfter 1 opts)
    ∧ (optargsOf 'p' opts = [] → spellDistanceAfter 1 opts = 1)
    ∧ (∀ arg, (optargsOf 'p' opts).getLast? = some arg →
        spellDistanceAfter 1 opts = toInt32 (strtoul arg)
        ∧ -(2 : Int) ^ 31 ≤ toInt32 (strtoul arg) ∧ toInt32 (strtoul arg) < (2 : Int) ^ 31
        ∧ (0 ≤ toInt32 (strtoul arg) ↔ strtoul arg % 2 ^ 32 < 2 ^ 31)
        ∧ (strtoul arg < 2 ^ 31 → toInt32 (strtoul arg) = (strtoul arg : Int))) := by
  have hflag := loadLoop_ok_of_all w (applyDefaults parsed).datafiles 0 (by simpa using hload)
  rw [main_loaded K w opts files parsed hopt hfiles hflag]
  refine ⟨?_, ?_, ?_⟩
  · show passedSpellDistance _ = _
    rw [List.append_assoc, List.append_assoc, passedSpellDistance_append]
    · have hsd : (applyDefaults parsed).spelldistance = spellDistanceAfter 1 opts := by
        rw [(applyDefaults_fields parsed).2.2.2.2.1, (optionLoop_ok K opts _ _ hopt).2.2.2.2.2.2]
        rfl
      simp [setupEffects, passedSpellDistance, hsd]
    · intro x hx
      rcases start_loaded_mem w _ x hx with rfl | rfl | ⟨t, rfl⟩ | ⟨p, rfl⟩ <;> rfl
  · intro h
    simp [spellDistanceAfter, h]
  · intro arg harg
    obtain ⟨h1, h2, h3, h4⟩ := toInt32_range (strtoul arg)
    refine ⟨?_, h1, h2, h3, h4⟩
    simp [spellDistanceAfter, harg]

/-- C6 amended, at a run with two `-p` options. -/
theorem C6_spell_distance_witness :
    optionLoop FlagBits.sample Options.initial [⟨'p', "7"⟩, ⟨'p', " +3x"⟩]
      = .ok { Options.initial with spelldistance := 3 }
    ∧ ["a.osm"] ≠ []
    ∧ passedSpellDistance (main FlagBits.sample (World.quiet [])
        [⟨'p', "7"⟩, ⟨'p', " +3x"⟩] ["a.osm"]).trace
      = some (spellDistanceAfter 1 [⟨'p', "7"⟩, ⟨'p', " +3x"⟩])
    ∧ (optargsOf 'p' [⟨'p', "7"⟩, ⟨'p', " +3x"⟩]).getLast? = some " +3x"
    ∧ spellDistanceAfter 1 [⟨'p', "7"⟩, ⟨'p', " +3x"⟩] = toInt32 (strtoul " +3x")
    ∧ toInt32 (strtoul " +3x") = 3 :=
  ⟨rfl, by decide,
    (C6_spell_distance FlagBits.sample (World.quiet []) [⟨'p', "7"⟩, ⟨'p', " +3x"⟩] ["a.osm"]
      { Options.initial with spelldistance := 3 } rfl (by decide) (fun _ _ => rfl)).1,
    by decide,
    ((C6_spell_distance FlagBits.sample (World.quiet []) [⟨'p', "7"⟩, ⟨'p', " +3x"⟩] ["a.osm"]
      { Options.initial with spelldistance := 3 } rfl (by decide) (fun _ _ => rfl)).2.2
        " +3x" (by decide)).1,
    by decide⟩

/-! ## The kind of an input argument -/

theorem rfindFrom_le_or_npos (s pat : List Char) (p : Nat) :
    rfindFrom s pat p ≤ p ∨ rfindFrom s pat p = npos := by
  induction p with
  | zero =>
    unfold rfindFrom
    split_ifs
    · exact Or.inl (Nat.le_refl _)
    · exact Or.inr rfl
  | succ p ih =>
    unfold rfindFrom
    split_ifs
    · exact Or.inl (Nat.le_refl _)
    · rcases ih with h | h
      · exact Or.inl (by omega)
      · exact Or.inr h

theorem rfindFrom_eq_self_iff (s pat : List Char) (p : Nat) (hp : p < npos) :
    rfindFrom s pat p = p ↔ pat.isPrefixOf (s.drop p) = true := by
  cases p with
  | zero =>
    unfold rfindFrom
    simp only [List.drop_zero]
    split_ifs with h
    · simp [h]
    · simp only [h, Bool.false_eq_true, iff_false]
      unfold npos WORD
      omega
  | succ p =>
    unfold rfindFrom
    split_ifs with h
    · simp [h]
    · simp only [h, Bool.false_eq_true, iff_false]
      rcases rfindFrom_le_or_npos s pat p with h1 | h1
      · omega
      · rw [h1]
        omega

theorem isPrefixOf_drop_iff (s pat : List Char) (hlen : pat.length ≤ s.length) :
    pat.isPrefixOf (s.drop (s.length - pat.length)) = true ↔ pat.isSuffixOf s = true := by
  rw [List.isPrefixOf_iff_prefix, List.isSuffixOf_iff_suffix, List.suffix_iff_eq_drop]
  constructor
  · intro h
    exact (h.eq_of_length (by simp; omega))
  · intro h
    rw [← h]

/-- The comparison `file.rfind(suffix) == file.length() - 4` is the test "ends with
`suffix`" for every four-character suffix and every file name whose length is not 3. -/
theorem rfind_eq_lengthMinus4_iff (file pat : String) (hpat : pat.length = 4)
    (h3 : file.length ≠ 3) (hlen : file.length < WORD) :
    rfind file pat = lengthMinus4 file ↔ pat.data.isSuffixOf file.data = true := by
  obtain ⟨cs⟩ := file
  obtain ⟨ps⟩ := pat
  simp only [String.length] at hpat h3 hlen
  unfold rfind lengthMinus4
  simp only [String.length]
  unfold WORD at hlen ⊢
  by_cases h4 : 4 ≤ cs.length
  · have hm : (cs.length + 2 ^ 64 - 4) % 2 ^ 64 = cs.length - ps.length := by
      rw [hpat, show cs.length + 2 ^ 64 - 4 = (cs.length - 4) + 2 ^ 64 by omega,
        Nat.add_mod_right]
      exact Nat.mod_eq_of_lt (by omega)
    rw [hm, if_pos (by omega), rfindFrom_eq_self_iff _ _ _ (by unfold npos WORD; omega)]
    exact isPrefixOf_drop_iff cs ps (by omega)
  · have hm : (cs.length + 2 ^ 64 - 4) % 2 ^ 64 = cs.length + 2 ^ 64 - 4 :=
      Nat.mod_eq_of_lt (by omega)
    rw [hm, if_neg (by omega)]
    constructor
    · intro h
      unfold npos WORD at h
      omega
    · intro h
      rw [List.isSuffixOf_iff_suffix] at h
      have := h.length_le
      omega

/-- Every file name of three characters is taken as OSM data. -/
theorem inputKind_length_three (file : String) (h : file.length = 3) :
    inputKind file = some (Source.osmFile file) := by
  have hne : file ≠ "-" := by
    intro h1
    rw [h1] at h
    revert h
    decide
  have h1 : rfind file ".osm" = npos := by
    unfold rfind
    rw [h]
    rfl
  have h2 : lengthMinus4 file = npos := by
    unfold lengthMinus4
    rw [h]
    rfl
  unfold inputKind
  rw [if_neg hne]
  simp [h1, h2]

/-- For every file name whose length is not 3 the `if` chain of the input loop chooses what
the usage text describes. -/
theorem inputKind_eq_describedKind (file : String) (h3 : file.length ≠ 3)
    (hlen : file.length < WORD) : inputKind file = describedKind file := by
  unfold inputKind describedKind
  by_cases hdash : file = "-"
  · simp [hdash]
  · have hosm := rfind_eq_lengthMinus4_iff file ".osm" rfl h3 hlen
    have htxt := rfind_eq_lengthMinus4_iff file ".txt" rfl h3 hlen
    simp only [if_neg hdash, hdash, decide_False, Bool.or_false, decide_eq_true_eq, hosm, htxt]

/-- C4, the failing input `process_names abc`: the argument `abc` has neither suffix and is
not `-`, yet the comparison `rfind(".osm") == length() - 4` holds for it (both sides are
`npos`), so `main` parses the file `abc` as OSM data, reports no unknown format and
returns 0. -/
theorem C4_three_letter_name_parsed_as_osm :
    rfind "abc" ".osm" = npos
    ∧ lengthMinus4 "abc" = npos
    ∧ describedKind "abc" = none
    ∧ inputKind "abc" = some (Source.osmFile "abc")
    ∧ main FlagBits.sample (World.quiet ["Lenina"]) [] ["abc"]
      = ⟨[Effect.newLocale "ru_RU", Effect.newDatabase,
          Effect.stderr "Loading database \"streets.txt\"...\n", Effect.load "streets.txt",
          Effect.newAggregator 0 1,
          Effect.addAddrTag "addr:street", Effect.addAddrTag "addr:street1",
          Effect.addAddrTag "addr:street2", Effect.addAddrTag "addr:street3",
          Effect.addAddrTag "addr2:street", Effect.addAddrTag "addr3:street",
          Effect.addNameTag "name",
          Effect.stderr "Processing file \"abc\" as OSM data...\n",
          Effect.osmParseFile "abc", Effect.processName "Lenina",
          Effect.dumpStats], Outcome.exit 0⟩ := by
  decide

end StreetMangler
